import Mathlib

/-!
Verification of the SMPS conversion utilities
(`pyomo/pysp/smps/smpsutils.py`) and the conic constraint kernel
(`pyomo/core/kernel/conic.py`) against their natural-language
specification.

The Python code is shallowly embedded: objects referenced by identity
(`id(obj)`) become `Nat` handles, dictionaries and `ComponentMap`s become
association lists `List (Nat × _)`, numeric data become `Int`, and code
that can raise becomes `Except PyError _`.  Mutation of the model is made
explicit by threading the model state through each step; an exception
propagates together with the state it leaves behind, exactly as a Python
exception leaves the mutated objects in place.
-/

namespace PyomoSmps

/-- Python exception classes that the embedded code can raise. -/
inductive PyError where
  | typeError
  | valueError
  | runtimeError
  | assertionError
  | nameError
  | keyError
  | indexError
  /-- Exception of unspecified class raised by `locate_annotations` when
  more annotations are found than `max_allowed`; the function is not part
  of the excerpt, so the precise class is modelled from the spec. -/
  | locateError
  deriving DecidableEq, Repr

/-- Time stage of a variable or constraint in the two-stage tree. -/
inductive Stage where
  | first
  | second
  deriving DecidableEq, Repr

/-- Result of `Except`-valued code, reduced to a Bool: did it raise? -/
def isErr {α : Type} (x : Except PyError α) : Bool :=
  match x with
  | .error _ => true
  | .ok _ => false

@[simp] theorem isErr_error {α : Type} (e : PyError) :
    isErr (Except.error e : Except PyError α) = true := rfl

@[simp] theorem isErr_ok {α : Type} (a : α) :
    isErr (Except.ok a : Except PyError α) = false := rfl

/-! ## Association-list helpers

Python dictionaries keyed by `id(obj)` are embedded as `List (Nat × β)`
with `List.lookup`.  `alistSet` models assignment to a key that is
already present (attribute update on an existing object); `mapInsert`
models `d[k] = v` on a dict (insert or overwrite). -/

/-- Overwrite the value stored under key `k` wherever it occurs. -/
def alistSet {β : Type} (l : List (Nat × β)) (k : Nat) (v : β) :
    List (Nat × β) :=
  l.map (fun p => if p.1 = k then (k, v) else p)

/-- Update the value stored under key `k` by `f` wherever it occurs. -/
def alistModify {β : Type} (l : List (Nat × β)) (k : Nat) (f : β → β) :
    List (Nat × β) :=
  l.map (fun p => if p.1 = k then (k, f p.2) else p)

/-- Insert-or-overwrite, dictionary style (`d[k] = v`). -/
def mapInsert {β : Type} (l : List (Nat × β)) (k : Nat) (v : β) :
    List (Nat × β) :=
  if (l.lookup k).isSome then alistSet l k v else l ++ [(k, v)]

@[simp] theorem alistSet_nil {β : Type} (k : Nat) (v : β) :
    alistSet ([] : List (Nat × β)) k v = [] := rfl

theorem alistSet_cons {β : Type} (p : Nat × β) (t : List (Nat × β)) (k : Nat)
    (v : β) :
    alistSet (p :: t) k v = (if p.1 = k then (k, v) else p) :: alistSet t k v :=
  rfl

@[simp] theorem alistModify_nil {β : Type} (k : Nat) (f : β → β) :
    alistModify ([] : List (Nat × β)) k f = [] := rfl

theorem alistModify_cons {β : Type} (p : Nat × β) (t : List (Nat × β)) (k : Nat)
    (f : β → β) :
    alistModify (p :: t) k f =
      (if p.1 = k then (k, f p.2) else p) :: alistModify t k f :=
  rfl

theorem lookup_cons {β : Type} (p : Nat × β) (t : List (Nat × β)) (k : Nat) :
    (p :: t).lookup k = if k = p.1 then some p.2 else t.lookup k := by
  by_cases h : k = p.1
  · have : (k == p.1) = true := by simpa [beq_iff_eq] using h
    simp [List.lookup, this, h]
  · have : (k == p.1) = false := by simpa [beq_iff_eq] using h
    simp [List.lookup, this, h]

@[simp] theorem alistSet_keys {β : Type} (l : List (Nat × β)) (k : Nat) (v : β) :
    (alistSet l k v).map Prod.fst = l.map Prod.fst := by
  induction l with
  | nil => rfl
  | cons p t ih =>
      rw [alistSet_cons]
      by_cases h : p.1 = k <;> simp [h, ih]

@[simp] theorem alistModify_keys {β : Type} (l : List (Nat × β)) (k : Nat)
    (f : β → β) :
    (alistModify l k f).map Prod.fst = l.map Prod.fst := by
  induction l with
  | nil => rfl
  | cons p t ih =>
      rw [alistModify_cons]
      by_cases h : p.1 = k <;> simp [h, ih]

theorem lookup_alistSet_self {β : Type} (l : List (Nat × β)) (k : Nat) (v : β)
    (h : (l.lookup k).isSome) : (alistSet l k v).lookup k = some v := by
  induction l with
  | nil => simp [List.lookup] at h
  | cons p t ih =>
      rw [alistSet_cons]
      by_cases hk : p.1 = k
      · simp [hk, lookup_cons]
      · rw [if_neg hk, lookup_cons, if_neg (fun he => hk he.symm)]
        rw [lookup_cons, if_neg (fun he => hk he.symm)] at h
        exact ih h

theorem lookup_alistSet_ne {β : Type} (l : List (Nat × β)) (k k' : Nat) (v : β)
    (h : k' ≠ k) : (alistSet l k v).lookup k' = l.lookup k' := by
  induction l with
  | nil => rfl
  | cons p t ih =>
      rw [alistSet_cons]
      by_cases hk : p.1 = k
      · rw [lookup_cons, lookup_cons, if_neg (by simpa [hk] using h)]
        rw [if_neg (by rw [hk]; exact h)]
        exact ih
      · rw [if_neg hk, lookup_cons, lookup_cons]
        by_cases hk' : k' = p.1
        · simp [hk']
        · rw [if_neg hk', if_neg hk']
          exact ih

theorem lookup_alistModify_self {β : Type} (l : List (Nat × β)) (k : Nat)
    (f : β → β) (b : β) (h : l.lookup k = some b) :
    (alistModify l k f).lookup k = some (f b) := by
  induction l with
  | nil => simp [List.lookup] at h
  | cons p t ih =>
      rw [alistModify_cons]
      by_cases hk : p.1 = k
      · rw [lookup_cons, if_pos hk.symm] at h
        rw [if_pos hk, lookup_cons, if_pos rfl]
        simp_all
      · rw [lookup_cons, if_neg (fun he => hk he.symm)] at h
        rw [if_neg hk, lookup_cons, if_neg (fun he => hk he.symm)]
        exact ih h

theorem lookup_alistModify_ne {β : Type} (l : List (Nat × β)) (k k' : Nat)
    (f : β → β) (h : k' ≠ k) :
    (alistModify l k f).lookup k' = l.lookup k' := by
  induction l with
  | nil => rfl
  | cons p t ih =>
      rw [alistModify_cons]
      by_cases hk : p.1 = k
      · rw [lookup_cons, lookup_cons, if_neg (by simpa [hk] using h)]
        rw [if_neg (by rw [hk]; exact h)]
        exact ih
      · rw [if_neg hk, lookup_cons, lookup_cons]
        by_cases hk' : k' = p.1
        · simp [hk']
        · rw [if_neg hk', if_neg hk']
          exact ih

/-! ## C10 — conic constraint bound accessors

Embedding of `_ConicBase` (`pyomo/core/kernel/conic.py`, lines 58-85) and
its six concrete subclasses.  None of the subclasses overrides `lb`,
`ub`, `rhs` or `equality`, so each class's method table is the base
class's.  Numeric values are embedded as rationals (`ub` returns the
float `0.0`). -/

/-- The six conic constraint classes of `pyomo/core/kernel/conic.py`. -/
inductive ConicKind where
  | quadratic
  | rotatedQuadratic
  | primalExponential
  | primalPower
  | dualExponential
  | dualPower
  deriving DecidableEq, Repr

/-- Method table for the four bound-related properties of a conic
constraint class. -/
structure ConicBoundMethods where
  lb : Option ℚ
  ub : Option ℚ
  rhs : Except PyError ℚ
  equality : Bool
  deriving Repr

/-- The `_ConicBase` implementations: `lb` returns `None`, `ub` returns
`0.0`, `rhs` raises `ValueError`, `equality` returns `False`. -/
def conicBaseBoundMethods : ConicBoundMethods :=
  { lb := none
    ub := some 0
    rhs := .error .valueError
    equality := false }

/-- Per-class method resolution: each of the six classes inherits the
`_ConicBase` properties unchanged (no subclass overrides them). -/
def conicBoundMethodsOf : ConicKind → ConicBoundMethods
  | .quadratic => conicBaseBoundMethods
  | .rotatedQuadratic => conicBaseBoundMethods
  | .primalExponential => conicBaseBoundMethods
  | .primalPower => conicBaseBoundMethods
  | .dualExponential => conicBaseBoundMethods
  | .dualPower => conicBaseBoundMethods

/-- C10: for every conic constraint class (quadratic, rotated_quadratic,
primal_exponential, primal_power, dual_exponential, dual_power), the
`lb` property returns None, the `ub` property returns 0.0, the
`equality` property returns False, and reading the `rhs` property raises
a `ValueError`; every conic constraint is therefore the inequality
`body <= 0` and never an equality. -/
theorem conic_bounds_uniform (k : ConicKind) :
    (conicBoundMethodsOf k).lb = none ∧
    (conicBoundMethodsOf k).ub = some 0 ∧
    (conicBoundMethodsOf k).equality = false ∧
    (conicBoundMethodsOf k).rhs = Except.error PyError.valueError := by
  cases k <;> exact ⟨rfl, rfl, rfl, rfl⟩

/-! ## C2 — convert_embedded parameter restoration

Embedding of the stochastic-parameter zeroing in `convert_embedded`
(`smpsutils.py`, lines 1459-1494).  The model's stochastic parameters
are an association list from parameter handle to current value.  Note
the faithful re-binding of `param_vals_orig` to a fresh empty
`ComponentMap` at line 1491, directly before the restore loop. -/

/-- State of `sp.stochastic_data` visible to `convert_embedded`: each
stochastic parameter's handle and current value. -/
structure EmbeddedParams where
  params : List (Nat × Int)
  deriving DecidableEq, Repr

/-- The parameter zero-and-restore phase of `convert_embedded`
(lines 1459-1494).  Lines 1459-1465 save every stochastic parameter's
value and set it to zero; the core file is then written (no parameter
changes); lines 1489-1494 create a fresh empty `param_vals_orig` map and
run the restore loop over it. -/
def convertEmbeddedParamPhase (m : EmbeddedParams) : EmbeddedParams :=
  -- lines 1462-1465: param_vals_orig = ComponentMap(); save and zero
  let paramValsOrig := m.params
  let m1 : EmbeddedParams := { params := m.params.map (fun p => (p.1, 0)) }
  -- lines 1470-1482: core file write; no parameter mutation
  -- line 1491: param_vals_orig = ComponentMap()  (re-bound to EMPTY)
  let paramValsOrig := ([] : List (Nat × Int))
  -- lines 1492-1493: for paramdata, orig_val in param_vals_orig.items()
  let m2 := paramValsOrig.foldl (fun acc p => { acc with
    params := alistSet acc.params p.1 p.2 }) m1
  m2

/-- C2 (code bug): `convert_embedded` does NOT leave the caller's model
value-identical.  Line 1491 re-binds `param_vals_orig` to a fresh empty
`ComponentMap` right before the restore loop, so the loop restores
nothing and every stochastic parameter is left at the zero written for
the core file, contradicting the source's own comment "Reset stochastic
parameter to their original setting values".  Evaluated at a parameter
with original value 5: the value after the phase is 0, not 5. -/
theorem convert_embedded_param_not_restored :
    (∀ m : EmbeddedParams,
      (convertEmbeddedParamPhase m).params = m.params.map (fun p => (p.1, 0))) ∧
    (convertEmbeddedParamPhase ⟨[(0, 5)]⟩).params = [(0, 0)] ∧
    (convertEmbeddedParamPhase ⟨[(0, 5)]⟩).params ≠ [(0, 5)] := by
  refine ⟨fun m => rfl, rfl, by decide⟩

/-! ## C3 — map_constraint_stages classification

Embedding of the per-constraint stage decision of
`map_constraint_stages` (`smpsutils.py`, lines 149-167).  A constraint
flagged as containing stochastic data is second-stage; otherwise the
loop over the non-fixed variables of its body sets it second-stage at
the first second-stage variable and asserts that every other non-fixed
variable is first-stage. -/

/-- A variable occurring in a constraint body, as seen by
`EmbeddedSP._collect_variables`: its handle and its `fixed` flag. -/
structure BodyVar where
  vid : Nat
  fixed : Bool
  deriving DecidableEq, Repr

/-- The variable loop of lines 160-166: starting from `first`, switch to
`second` (with `break`) at the first non-fixed second-stage variable;
a non-fixed variable in neither stage set fails the
`assert id(var) in firststage_variable_ids`. -/
def constraintStageVarLoop (secondIds firstIds : List Nat) :
    List BodyVar → Except PyError Stage
  | [] => .ok .first
  | v :: rest =>
      if v.fixed then constraintStageVarLoop secondIds firstIds rest
      else if v.vid ∈ secondIds then .ok .second
      else if v.vid ∈ firstIds then constraintStageVarLoop secondIds firstIds rest
      else .error .assertionError

/-- The stage decision for one active constraint (lines 149-167):
second-stage when flagged stochastic, else the body-variable loop. -/
def classifyConstraintStage (stochasticConstraintIds secondIds firstIds : List Nat)
    (conId : Nat) (bodyVars : List BodyVar) : Except PyError Stage :=
  if conId ∈ stochasticConstraintIds then .ok .second
  else constraintStageVarLoop secondIds firstIds bodyVars

theorem constraintStageVarLoop_spec (secondIds firstIds : List Nat)
    (bodyVars : List BodyVar) (st : Stage)
    (h : constraintStageVarLoop secondIds firstIds bodyVars = .ok st) :
    (st = .second ↔ ∃ v ∈ bodyVars, v.fixed = false ∧ v.vid ∈ secondIds) := by
  induction bodyVars with
  | nil =>
      simp only [constraintStageVarLoop, Except.ok.injEq] at h
      subst h
      simp
  | cons v rest ih =>
      simp only [constraintStageVarLoop] at h
      by_cases hf : v.fixed
      · rw [if_pos hf] at h
        have := ih h
        constructor
        · intro hs
          obtain ⟨w, hw, hwf, hws⟩ := this.mp hs
          exact ⟨w, List.mem_cons_of_mem _ hw, hwf, hws⟩
        · intro ⟨w, hw, hwf, hws⟩
          rcases List.mem_cons.mp hw with hwv | hwr
          · subst hwv; rw [hf] at hwf; cases hwf
          · exact this.mpr ⟨w, hwr, hwf, hws⟩
      · rw [if_neg hf] at h
        by_cases hs2 : v.vid ∈ secondIds
        · rw [if_pos hs2] at h
          injection h with h
          subst h
          simp only [true_iff]
          exact ⟨v, List.mem_cons_self _ _, Bool.not_eq_true _ ▸ by
            simpa using hf, hs2⟩
        · rw [if_neg hs2] at h
          by_cases hf1 : v.vid ∈ firstIds
          · rw [if_pos hf1] at h
            have := ih h
            constructor
            · intro hs
              obtain ⟨w, hw, hwf, hws⟩ := this.mp hs
              exact ⟨w, List.mem_cons_of_mem _ hw, hwf, hws⟩
            · intro ⟨w, hw, hwf, hws⟩
              rcases List.mem_cons.mp hw with hwv | hwr
              · subst hwv; exact absurd hws hs2
              · exact this.mpr ⟨w, hwr, hwf, hws⟩
          · rw [if_neg hf1] at h
            cases h

/-- C3: whenever `map_constraint_stages` classifies an active constraint
(no assertion failure), the constraint is second-stage if and only if it
was flagged as containing stochastic data or at least one non-fixed
variable of its body is a second-stage variable; otherwise it is
first-stage, fixed variables being ignored. -/
theorem map_constraint_stages_classification
    (stochasticConstraintIds secondIds firstIds : List Nat)
    (conId : Nat) (bodyVars : List BodyVar) (st : Stage)
    (h : classifyConstraintStage stochasticConstraintIds secondIds firstIds
      conId bodyVars = .ok st) :
    (st = .second ↔
      conId ∈ stochasticConstraintIds ∨
        ∃ v ∈ bodyVars, v.fixed = false ∧ v.vid ∈ secondIds) := by
  unfold classifyConstraintStage at h
  by_cases hc : conId ∈ stochasticConstraintIds
  · rw [if_pos hc] at h
    injection h with h
    subst h
    simp [hc]
  · rw [if_neg hc] at h
    rw [constraintStageVarLoop_spec secondIds firstIds bodyVars st h]
    simp [hc]

/-- Witness for C3 at a concrete input: a non-stochastic constraint with
one fixed second-stage variable and one non-fixed first-stage variable
is classified first-stage, and the characterization holds there. -/
theorem map_constraint_stages_classification_witness :
    classifyConstraintStage [9] [2] [1] 7 [⟨2, true⟩, ⟨1, false⟩] =
        Except.ok Stage.first ∧
      (Stage.first = Stage.second ↔
        7 ∈ [9] ∨ ∃ v ∈ [BodyVar.mk 2 true, BodyVar.mk 1 false],
          v.fixed = false ∧ v.vid ∈ [2]) :=
  ⟨rfl, map_constraint_stages_classification [9] [2] [1] 7
    [⟨2, true⟩, ⟨1, false⟩] Stage.first rfl⟩

/-! ## C4 — map_variable_stages classification

Embedding of the per-variable stage decision of `map_variable_stages`
(`smpsutils.py`, lines 205-220).  `scenario_tree_id` is
`scenariotree_byObject.get(id(var), None)`, hence an `Option Nat`. -/

/-- Membership of an optional scenario-tree id in an id set
(`None in s` is false for the id sets involved). -/
def optMem : Option Nat → List Nat → Bool
  | none, _ => false
  | some i, l => i ∈ l

/-- The stage decision of lines 209-220: standard first-stage ids are
first-stage; derived first-stage ids are first-stage only when
`enforce_derived_nonanticipativity` is set; derived, second-stage and
absent ids are otherwise second-stage; any remaining id hits
`assert False`. -/
def classifyVariableStage (enforce : Bool)
    (standardIds derivedIds secondIds : List Nat)
    (scenarioTreeId : Option Nat) : Except PyError Stage :=
  if optMem scenarioTreeId standardIds then .ok .first
  else if enforce && optMem scenarioTreeId derivedIds then .ok .first
  else if optMem scenarioTreeId derivedIds || optMem scenarioTreeId secondIds
      || scenarioTreeId.isNone then .ok .second
  else .error .assertionError

/-- C4, counterexample: a variable whose scenario-tree stage id is
present but recognized by none of the root-node standard set, the
root-node derived set or the second-stage set is NOT classified
second-stage as the claim's defensive default demands; the code hits
`assert False` ("More than two stages?") and raises instead of
classifying the variable at all. -/
theorem map_variable_stages_unrecognized_id_not_second :
    classifyVariableStage false [] [] [] (some 0) =
        Except.error PyError.assertionError ∧
      classifyVariableStage false [] [] [] (some 0) ≠
        Except.ok Stage.second := by
  refine ⟨rfl, ?_⟩
  intro h
  rw [show classifyVariableStage false [] [] [] (some 0) =
    Except.error PyError.assertionError from rfl] at h
  cases h

/-- C4 as amended: a variable present in the symbol map is classified
first-stage iff its scenario-tree stage id is in the root node's
standard set, or the enforce-derived-nonanticipativity flag is set and
the id is in the root node's derived set; it is classified second-stage
iff it is not first-stage and its id is in the derived set, in the
second-stage set, or absent; a present stage id in none of the three
sets raises an assertion error instead of receiving a stage. -/
theorem map_variable_stages_classification (enforce : Bool)
    (standardIds derivedIds secondIds : List Nat)
    (scenarioTreeId : Option Nat) :
    (classifyVariableStage enforce standardIds derivedIds secondIds
        scenarioTreeId = .ok .first ↔
      (optMem scenarioTreeId standardIds = true ∨
        (enforce = true ∧ optMem scenarioTreeId derivedIds = true))) ∧
    (classifyVariableStage enforce standardIds derivedIds secondIds
        scenarioTreeId = .ok .second ↔
      (¬(optMem scenarioTreeId standardIds = true ∨
          (enforce = true ∧ optMem scenarioTreeId derivedIds = true)) ∧
        (optMem scenarioTreeId derivedIds = true ∨
          optMem scenarioTreeId secondIds = true ∨
          scenarioTreeId = none))) ∧
    (classifyVariableStage enforce standardIds derivedIds secondIds
        scenarioTreeId = .error .assertionError ↔
      (¬(optMem scenarioTreeId standardIds = true ∨
          (enforce = true ∧ optMem scenarioTreeId derivedIds = true)) ∧
        ¬(optMem scenarioTreeId derivedIds = true ∨
          optMem scenarioTreeId secondIds = true ∨
          scenarioTreeId = none))) := by
  unfold classifyVariableStage
  simp only [← Option.isNone_iff_eq_none]
  generalize optMem scenarioTreeId standardIds = s
  generalize optMem scenarioTreeId derivedIds = d
  generalize optMem scenarioTreeId secondIds = c
  generalize scenarioTreeId.isNone = n
  cases s <;> cases d <;> cases c <;> cases n <;> cases enforce <;>
    simp

/-- Witness for the amended C4 theorem (it has only non-Prop binders,
but we also record its evaluation at a concrete input): a derived-id
variable with the flag unset is second-stage, with the flag set it is
first-stage. -/
theorem map_variable_stages_classification_witness :
    classifyVariableStage false [] [4] [] (some 4) = Except.ok Stage.second ∧
      classifyVariableStage true [] [4] [] (some 4) = Except.ok Stage.first :=
  ⟨rfl, rfl⟩

/-! ## C5 / C8 — .col and .row file emission

Embedding of the column- and row-ordering file writers of
`_convert_external_setup_without_cleanup` (`smpsutils.py`,
lines 549-591).  A file is the list of records written to it; each
loop appends one record per symbol and increments the running count,
then the synthetic constant entry is written with the second-stage
count incremented once more. -/

/-- One emission loop: write each symbol as a record and count it. -/
def writeSyms (syms : List String) (acc : List String × Nat) :
    List String × Nat :=
  syms.foldl (fun a s => (a.1 ++ [s], a.2 + 1)) acc

/-- Emission of a list of per-constraint symbol lists (a range
constraint contributes its two split row symbols). -/
def writeConSyms (symLists : List (List String)) (acc : List String × Nat) :
    List String × Nat :=
  symLists.foldl (fun a syms => writeSyms syms a) acc

/-- The `.col` writer (lines 549-562): first-stage variable symbols,
second-stage variable symbols, then `ONE_VAR_CONSTANT` counted into the
second-stage count.  Returns (records, firststage_variable_count,
secondstage_variable_count). -/
def writeColFile (fsVarSyms ssVarSyms : List String) :
    List String × Nat × Nat :=
  let fsAcc := writeSyms fsVarSyms ([], 0)
  let ssAcc := writeSyms ssVarSyms (fsAcc.1, 0)
  (ssAcc.1 ++ ["ONE_VAR_CONSTANT"], fsAcc.2, ssAcc.2 + 1)

/-- The `.row` writer (lines 568-591): the objective symbol first, the
first-stage constraint symbols, the second-stage constraint symbols,
then `c_e_ONE_VAR_CONSTANT` counted into the second-stage count.
Returns (records, firststage_constraint_count,
secondstage_constraint_count). -/
def writeRowFile (objSym : String) (fsConSyms ssConSyms : List (List String)) :
    List String × Nat × Nat :=
  let fsAcc := writeConSyms fsConSyms ([objSym], 0)
  let ssAcc := writeConSyms ssConSyms (fsAcc.1, 0)
  (ssAcc.1 ++ ["c_e_ONE_VAR_CONSTANT"], fsAcc.2, ssAcc.2 + 1)

theorem writeSyms_eq (syms : List String) (l : List String) (n : Nat) :
    writeSyms syms (l, n) = (l ++ syms, n + syms.length) := by
  induction syms generalizing l n with
  | nil => simp [writeSyms]
  | cons s rest ih =>
      show writeSyms rest (l ++ [s], n + 1) = _
      rw [ih]
      rw [List.append_cons l s rest, List.length_cons]
      rw [Nat.add_comm rest.length 1, ← Nat.add_assoc]

theorem writeConSyms_eq (symLists : List (List String)) (l : List String)
    (n : Nat) :
    writeConSyms symLists (l, n) =
      (l ++ symLists.flatten, n + symLists.flatten.length) := by
  induction symLists generalizing l n with
  | nil => simp [writeConSyms]
  | cons syms rest ih =>
      show writeConSyms rest (writeSyms syms (l, n)) = _
      rw [writeSyms_eq, ih]
      rw [List.flatten_cons, List.append_assoc, List.length_append]
      rw [Nat.add_assoc]

/-- C5: for every per-scenario external conversion, the `.col` file
lists the first-stage variable symbols, then the second-stage variable
symbols, then the trailing synthetic `ONE_VAR_CONSTANT`; and the `.row`
file lists the objective symbol first, then the first-stage constraint
symbols, then the second-stage constraint symbols, then the trailing
synthetic `c_e_ONE_VAR_CONSTANT`. -/
theorem col_row_file_layout (fsVarSyms ssVarSyms : List String)
    (objSym : String) (fsConSyms ssConSyms : List (List String)) :
    (writeColFile fsVarSyms ssVarSyms).1 =
        fsVarSyms ++ ssVarSyms ++ ["ONE_VAR_CONSTANT"] ∧
      (writeRowFile objSym fsConSyms ssConSyms).1 =
        objSym :: (fsConSyms.flatten ++ ssConSyms.flatten ++ ["c_e_ONE_VAR_CONSTANT"]) := by
  constructor
  · simp [writeColFile, writeSyms_eq]
  · simp [writeRowFile, writeConSyms_eq]

/-- C8, counterexample: with one first-stage variable and no
second-stage variable the `.col` file has 2 lines while the counts
returned by the conversion are firststage_variable_count = 1 and
secondstage_variable_count = 1 (the synthetic constant is already
counted inside the latter), so the line count does not equal the
first-stage count plus the second-stage count plus a separate synthetic
constant entry. -/
theorem col_line_count_counterexample :
    (writeColFile ["x1"] []).1.length = 2 ∧
      (writeColFile ["x1"] []).2.1 = 1 ∧
      (writeColFile ["x1"] []).2.2 = 1 ∧
      (writeColFile ["x1"] []).1.length ≠
        (writeColFile ["x1"] []).2.1 + (writeColFile ["x1"] []).2.2 + 1 := by
  refine ⟨rfl, rfl, rfl, by decide⟩

/-- C8 as amended: every symbol appearing in the `.col`/`.row` file
appears exactly once in it (the file is the ordering map, one rank per
line) provided the writer-assigned symbols are distinct and distinct
from the synthetic constant symbols; the `.col` line count equals the
returned first-stage plus second-stage variable counts (the synthetic
constant variable being counted inside the returned second-stage
count), and the `.row` line count equals the returned first-stage plus
second-stage constraint counts plus one for the leading objective
symbol (the synthetic constant row again counted inside the returned
second-stage count). -/
theorem col_row_symbol_coverage (fsVarSyms ssVarSyms : List String)
    (objSym : String) (fsConSyms ssConSyms : List (List String))
    (hcol : (fsVarSyms ++ ssVarSyms ++ ["ONE_VAR_CONSTANT"]).Nodup)
    (hrow : (objSym :: (fsConSyms.flatten ++ ssConSyms.flatten ++
      ["c_e_ONE_VAR_CONSTANT"])).Nodup) :
    (∀ s ∈ (writeColFile fsVarSyms ssVarSyms).1,
        (writeColFile fsVarSyms ssVarSyms).1.count s = 1) ∧
      (∀ s ∈ (writeRowFile objSym fsConSyms ssConSyms).1,
        (writeRowFile objSym fsConSyms ssConSyms).1.count s = 1) ∧
      (writeColFile fsVarSyms ssVarSyms).1.length =
        (writeColFile fsVarSyms ssVarSyms).2.1 +
          (writeColFile fsVarSyms ssVarSyms).2.2 ∧
      (writeRowFile objSym fsConSyms ssConSyms).1.length =
        1 + (writeRowFile objSym fsConSyms ssConSyms).2.1 +
          (writeRowFile objSym fsConSyms ssConSyms).2.2 := by
  have hc := (col_row_file_layout fsVarSyms ssVarSyms objSym fsConSyms
    ssConSyms).1
  have hr := (col_row_file_layout fsVarSyms ssVarSyms objSym fsConSyms
    ssConSyms).2
  refine ⟨?_, ?_, ?_, ?_⟩
  · intro s hs
    rw [hc] at hs ⊢
    exact List.count_eq_one_of_mem hcol hs
  · intro s hs
    rw [hr] at hs ⊢
    exact List.count_eq_one_of_mem hrow hs
  · rw [hc]
    show _ = (writeColFile fsVarSyms ssVarSyms).2.1 +
      (writeColFile fsVarSyms ssVarSyms).2.2
    simp only [writeColFile, writeSyms_eq, List.length_append,
      List.length_cons, List.length_nil]
    omega
  · rw [hr]
    show _ = 1 + (writeRowFile objSym fsConSyms ssConSyms).2.1 +
      (writeRowFile objSym fsConSyms ssConSyms).2.2
    simp only [writeRowFile, writeConSyms_eq, List.length_append,
      List.length_cons, List.length_nil]
    omega

/-- Witness for C8 as amended, at a concrete input with distinct
symbols. -/
theorem col_row_symbol_coverage_witness :
    (["x1"] ++ ["y1"] ++ ["ONE_VAR_CONSTANT"]).Nodup ∧
      (("o" : String) :: ([["c_e_a"]].flatten ++ [["r_l_b", "r_u_b"]].flatten ++
        ["c_e_ONE_VAR_CONSTANT"])).Nodup ∧
      (writeColFile ["x1"] ["y1"]).1.length =
        (writeColFile ["x1"] ["y1"]).2.1 + (writeColFile ["x1"] ["y1"]).2.2 :=
  ⟨by decide, by decide,
    (col_row_symbol_coverage ["x1"] ["y1"] "o" [["c_e_a"]]
      [["r_l_b", "r_u_b"]] (by decide) (by decide)).2.2.1⟩

/-! ## C9 — reserved symbol collision check

Embedding of the column-ordering construction of
`_convert_external_setup_without_cleanup` (lines 469-504): the loops
over the first- and second-stage variables assign consecutive column
indices and raise `RuntimeError` when a variable's writer-assigned
symbol is the reserved token "RHS"; the row-ordering loops perform no
symbol check at all. -/

/-- One column-order loop (lines 471-479 and 481-490): enumerate the
stage's (symbol, variable) pairs, extending the order and checking each
symbol against "RHS". -/
def columnOrderLoop : List (String × Nat) → List Nat → Except PyError (List Nat)
  | [], acc => .ok acc
  | (symbol, vid) :: rest, acc =>
      if symbol = "RHS" then .error .runtimeError
      else columnOrderLoop rest (acc ++ [vid])

/-- The column-order construction (lines 469-490): first-stage loop
then second-stage loop, each with the "RHS" check. -/
def buildColumnOrder (fsVars ssVars : List (String × Nat)) :
    Except PyError (List Nat) :=
  match columnOrderLoop fsVars [] with
  | .error e => .error e
  | .ok acc => columnOrderLoop ssVars acc

/-- The row-order construction (lines 495-504): enumeration only, no
reserved-symbol check of any kind. -/
def buildRowOrder (fsCons ssCons : List Nat) : List Nat :=
  fsCons ++ ssCons

theorem columnOrderLoop_spec (l : List (String × Nat)) (acc : List Nat) :
    (isErr (columnOrderLoop l acc) = true ↔ ∃ p ∈ l, p.1 = "RHS") ∧
      (∀ out, columnOrderLoop l acc = .ok out → out = acc ++ l.map Prod.snd) := by
  induction l generalizing acc with
  | nil =>
      refine ⟨by simp [columnOrderLoop], ?_⟩
      intro out h
      injection h with h
      simp [h.symm]
  | cons p rest ih =>
      obtain ⟨symbol, vid⟩ := p
      by_cases hs : symbol = "RHS"
      · subst hs
        refine ⟨?_, ?_⟩
        · simp [columnOrderLoop]
        · intro out h
          simp [columnOrderLoop] at h
      · refine ⟨?_, ?_⟩
        · rw [show columnOrderLoop ((symbol, vid) :: rest) acc =
            columnOrderLoop rest (acc ++ [vid]) by
              simp [columnOrderLoop, hs]]
          rw [(ih (acc ++ [vid])).1]
          simp [hs]
        · intro out h
          rw [show columnOrderLoop ((symbol, vid) :: rest) acc =
            columnOrderLoop rest (acc ++ [vid]) by
              simp [columnOrderLoop, hs]] at h
          have := (ih (acc ++ [vid])).2 out h
          simp [this]

/-- C9, counterexample: a variable whose writer-assigned symbol is the
reserved token "ONE_VAR_CONSTANT" does NOT make the conversion raise;
the column-ordering loops only check for the token "RHS", so the
collision passes through silently. -/
theorem reserved_symbol_one_var_constant_not_checked :
    buildColumnOrder [("ONE_VAR_CONSTANT", 0)] [] = Except.ok [0] := rfl

/-- C9 as amended: the conversion raises an error (rather than
renaming) exactly when some variable's writer-assigned symbol is the
reserved token "RHS"; no check is made for the reserved token
"ONE_VAR_CONSTANT", and the row-ordering construction checks no
constraint symbol at all (it is total). -/
theorem reserved_symbol_check_rhs_only (fsVars ssVars : List (String × Nat))
    (fsCons ssCons : List Nat) :
    (isErr (buildColumnOrder fsVars ssVars) = true ↔
        ∃ p ∈ fsVars ++ ssVars, p.1 = "RHS") ∧
      buildRowOrder fsCons ssCons = fsCons ++ ssCons := by
  refine ⟨?_, rfl⟩
  unfold buildColumnOrder
  rcases h1 : columnOrderLoop fsVars [] with e | acc
  · have herr : isErr (columnOrderLoop fsVars []) = true := by rw [h1]; rfl
    rw [(columnOrderLoop_spec fsVars []).1] at herr
    constructor
    · intro _
      obtain ⟨p, hp, hps⟩ := herr
      exact ⟨p, List.mem_append_left _ hp, hps⟩
    · intro _; rfl
  · have hfs : ¬∃ p ∈ fsVars, p.1 = "RHS" := by
      rw [← (columnOrderLoop_spec fsVars []).1, h1]
      simp
    rw [(columnOrderLoop_spec ssVars acc).1]
    constructor
    · intro ⟨p, hp, hps⟩
      exact ⟨p, List.mem_append_right _ hp, hps⟩
    · intro ⟨p, hp, hps⟩
      rcases List.mem_append.mp hp with h | h
      · exact absurd ⟨p, h, hps⟩ hfs
      · exact ⟨p, h, hps⟩

/-- Witness for the amended C9 theorem at a concrete input: a variable
with symbol "RHS" raises, and without it the ordering succeeds. -/
theorem reserved_symbol_check_rhs_only_witness :
    (isErr (buildColumnOrder [("x", 3)] [("RHS", 4)]) = true ↔
        ∃ p ∈ [(("x" : String), 3)] ++ [(("RHS" : String), 4)], p.1 = "RHS") ∧
      buildRowOrder [1] [2] = [1] ++ [2] :=
  reserved_symbol_check_rhs_only [("x", 3)] [("RHS", 4)] [1] [2]

/-! ## C7 — second-stage cross-check for annotated constraints

Embedding of the consistency check performed in the `.sto` writing
loops (`smpsutils.py`, lines 694-707 for the rhs annotation and
801-814 for the matrix annotation).  When the annotation is explicit
(`empty_*_annotation` is False) and the constraint was not classified
second-stage, the code executes
`raise RuntimeError(... % (..., ConstraintStageAnnotation.__name__))`.
Formatting the message resolves the plain name
`ConstraintStageAnnotation`; Python name resolution over the module's
global namespace is embedded as a lookup in the list of names the
module defines or imports. -/

/-- The global names of module `pyomo.pysp.smps.smpsutils` that are
relevant to resolving `ConstraintStageAnnotation`: the annotation class
is imported at line 32 under the name `_ConstraintStageAnnotation`
(with the leading underscore), and no other statement binds a name
containing `ConstraintStageAnnotation`. -/
def smpsutilsAnnotationNames : List String :=
  ["locate_annotations",
   "_ConstraintStageAnnotation",
   "StochasticConstraintBoundsAnnotation",
   "StochasticConstraintBodyAnnotation",
   "StochasticObjectiveAnnotation",
   "StochasticVariableBoundsAnnotation"]

/-- The cross-check of lines 694-707 / 801-814: explicit annotations
verify that the named constraint is second-stage; default
(applies-to-all) annotations skip the check.  When the check fires, the
error message is built first, so the undefined global name
`ConstraintStageAnnotation` raises `NameError` before the intended
`RuntimeError` is constructed. -/
def annotatedConStageCheck (emptyAnn : Bool) (conId : Nat)
    (secondstageConIds : List Nat) : Except PyError Unit :=
  if !emptyAnn then
    if conId ∉ secondstageConIds then
      if "ConstraintStageAnnotation" ∈ smpsutilsAnnotationNames then
        .error .runtimeError
      else .error .nameError
    else .ok ()
  else .ok ()

/-- C7 (code bug): the cross-check for explicitly annotated constraints
fires exactly when the constraint is not classified second-stage, and
default annotations are never checked — but when it fires, the
conversion raises a `NameError` instead of the intended consistency
`RuntimeError`: the raise statement interpolates
`ConstraintStageAnnotation.__name__` while the module only imports the
class under the name `_ConstraintStageAnnotation`. -/
theorem annotated_constraint_stage_check_raises_name_error :
    annotatedConStageCheck false 1 [] = Except.error PyError.nameError ∧
      "ConstraintStageAnnotation" ∉ smpsutilsAnnotationNames ∧
      "_ConstraintStageAnnotation" ∈ smpsutilsAnnotationNames ∧
      annotatedConStageCheck true 1 [] = Except.ok () ∧
      annotatedConStageCheck false 1 [1] = Except.ok () := by
  refine ⟨rfl, by decide, by decide, rfl, rfl⟩

/-! ## C6 — annotation location and validation

Embedding of `_convert_external_setup_without_cleanup` lines 296-394:
the four annotation kinds are located, explicit entry lists are
expanded (via `expand_entries`, external to the excerpt; its result is
an input here) and checked non-empty, stochastic variable-bounds
annotations are rejected, and the absence of all three supported kinds
is an error. -/

/-- The `include_bound` payload of a stochastic-rhs entry: either the
literal True (both bounds) or a pair of booleans (lower, upper). -/
inductive IncludeBound where
  | all
  | pair (lo hi : Bool)
  deriving DecidableEq, Repr

/-- Does the payload cover the lower bound
(`include_bound is True or include_bound[0] is True`)? -/
def coversLower : IncludeBound → Bool
  | .all => true
  | .pair lo _ => lo

/-- Does the payload cover the upper bound
(`include_bound is True or include_bound[1] is True`)? -/
def coversUpper : IncludeBound → Bool
  | .all => true
  | .pair _ hi => hi

/-- One `StochasticConstraintBoundsAnnotation` object: whether it has
explicit declarations, the (name-sorted) expansion of those
declarations, and its default payload. -/
structure RhsAnnData where
  hasDecl : Bool
  entries : List (Nat × IncludeBound)
  defaultBound : IncludeBound
  deriving DecidableEq, Repr

/-- One `StochasticConstraintBodyAnnotation` object; an entry payload of
`none` means "all variables of the constraint body". -/
structure MatrixAnnData where
  hasDecl : Bool
  entries : List (Nat × Option (List Nat))
  defaultVars : Option (List Nat)
  deriving DecidableEq, Repr

/-- One `StochasticObjectiveAnnotation` object, as consumed by the
`.sto` objective section (lines 870-885): either an explicit
declaration whose expansion is empty (an error there), an explicit
declaration carrying (variables, include_constant), or a default
annotation carrying the same payload. -/
inductive ObjAnnData where
  | declaredEmpty
  | declared (objVars : Option (List Nat)) (includeConstant : Bool)
  | defaultAnn (objVars : Option (List Nat)) (includeConstant : Bool)
  deriving DecidableEq, Repr

/-- The annotation state of the scenario model: the located annotation
objects of each kind and the active constraints used to expand default
annotations. -/
structure AnnInput where
  rhsAnns : List RhsAnnData
  matrixAnns : List MatrixAnnData
  objAnns : List ObjAnnData
  varBoundsAnnCount : Nat
  allConstraints : List Nat
  deriving DecidableEq, Repr

/-- Modelled from the spec: `locate_annotations` (imported from
`pyomo.pysp.annotations`, which is not part of the excerpt) returns the
located annotation objects and raises when more are found than
`max_allowed` ("At most one instance of each of the first three is
allowed"). -/
def locateAnnotationsLimited {α : Type} (found : List α) (maxAllowed : Nat) :
    Except PyError (List α) :=
  if found.length > maxAllowed then .error .locateError else .ok found

/-- Lines 305-331: resolve the stochastic-rhs annotation.  Returns
`none` when absent, otherwise `(empty_rhs_annotation, entries)`: an
explicit annotation expanding to no active constraint raises, a default
annotation expands over all active constraints. -/
def resolveStochasticRhs (anns : List RhsAnnData) (allCons : List Nat) :
    Except PyError (Option (Bool × List (Nat × IncludeBound))) :=
  match locateAnnotationsLimited anns 1 with
  | .error e => .error e
  | .ok [] => .ok none
  | .ok (ann :: _) =>
      if ann.hasDecl then
        if ann.entries.isEmpty then .error .runtimeError
        else .ok (some (false, ann.entries))
      else .ok (some (true, allCons.map (fun c => (c, ann.defaultBound))))

/-- Lines 333-358: resolve the stochastic-matrix annotation, same
shape as the rhs resolution. -/
def resolveStochasticMatrix (anns : List MatrixAnnData) (allCons : List Nat) :
    Except PyError (Option (Bool × List (Nat × Option (List Nat)))) :=
  match locateAnnotationsLimited anns 1 with
  | .error e => .error e
  | .ok [] => .ok none
  | .ok (ann :: _) =>
      if ann.hasDecl then
        if ann.entries.isEmpty then .error .runtimeError
        else .ok (some (false, ann.entries))
      else .ok (some (true, allCons.map (fun c => (c, ann.defaultVars))))

/-- Lines 366-374: resolve the stochastic-objective annotation (its
explicit expansion is validated later, in the `.sto` section). -/
def resolveStochasticObjective (anns : List ObjAnnData) :
    Except PyError (Option ObjAnnData) :=
  match locateAnnotationsLimited anns 1 with
  | .error e => .error e
  | .ok [] => .ok none
  | .ok (ann :: _) => .ok (some ann)

/-- The resolved annotations handed to the rest of the conversion. -/
structure ResolvedAnnotations where
  rhs : Option (Bool × List (Nat × IncludeBound))
  matrix : Option (Bool × List (Nat × Option (List Nat)))
  obj : Option ObjAnnData
  deriving DecidableEq, Repr

/-- Lines 296-394 of `_convert_external_setup_without_cleanup`: locate
and validate the stochastic annotations, reject stochastic variable
bounds (lines 376-383), and fail when none of the three supported kinds
is present (lines 385-394). -/
def checkAnnotations (a : AnnInput) : Except PyError ResolvedAnnotations :=
  match resolveStochasticRhs a.rhsAnns a.allConstraints with
  | .error e => .error e
  | .ok rhsRes =>
    match resolveStochasticMatrix a.matrixAnns a.allConstraints with
    | .error e => .error e
    | .ok matrixRes =>
      match resolveStochasticObjective a.objAnns with
      | .error e => .error e
      | .ok objRes =>
        if a.varBoundsAnnCount > 0 then .error .valueError
        else if rhsRes.isNone && matrixRes.isNone && objRes.isNone then
          .error .runtimeError
        else .ok ⟨rhsRes, matrixRes, objRes⟩

/-- C6: the external conversion fails with an error whenever a
stochastic-variable-bounds annotation is present, whenever none of the
stochastic-rhs, stochastic-matrix or stochastic-objective annotations
is found, whenever a stochastic-rhs or stochastic-matrix annotation
declared with explicit entries resolves to zero active constraints, and
whenever more than one instance of any of the three supported kinds is
present (reason: the `locate_annotations` limit is modelled from the
spec). -/
theorem annotation_resolver_errors (a : AnnInput)
    (h : 0 < a.varBoundsAnnCount ∨
      (a.rhsAnns = [] ∧ a.matrixAnns = [] ∧ a.objAnns = []) ∨
      (∃ hd tl, a.rhsAnns = hd :: tl ∧ hd.hasDecl = true ∧ hd.entries = []) ∨
      (∃ hd tl, a.matrixAnns = hd :: tl ∧ hd.hasDecl = true ∧
        hd.entries = []) ∨
      1 < a.rhsAnns.length ∨ 1 < a.matrixAnns.length ∨ 1 < a.objAnns.length) :
    isErr (checkAnnotations a) = true := by
  unfold checkAnnotations
  rcases hrhs : resolveStochasticRhs a.rhsAnns a.allConstraints with e | rhsRes
  · rfl
  rcases hmat : resolveStochasticMatrix a.matrixAnns a.allConstraints
    with e | matrixRes
  · rfl
  rcases hobj : resolveStochasticObjective a.objAnns with e | objRes
  · rfl
  rcases h with hvb | ⟨h1, h2, h3⟩ | ⟨hd, tl, heq, hdecl, hent⟩ |
    ⟨hd, tl, heq, hdecl, hent⟩ | hlen | hlen | hlen
  · simp [hvb]
  · -- all three annotation kinds absent: the rhs/matrix/obj resolutions
    -- all give none, so unless variable bounds fail first the
    -- "no stochastic annotations found" error fires
    rw [h1] at hrhs
    rw [h2] at hmat
    rw [h3] at hobj
    have e1 : rhsRes = none := by
      simpa [resolveStochasticRhs, locateAnnotationsLimited] using hrhs.symm
    have e2 : matrixRes = none := by
      simpa [resolveStochasticMatrix, locateAnnotationsLimited] using hmat.symm
    have e3 : objRes = none := by
      simpa [resolveStochasticObjective, locateAnnotationsLimited] using hobj.symm
    subst e1; subst e2; subst e3
    by_cases hvb : 0 < a.varBoundsAnnCount
    · simp [hvb]
    · simp [hvb]
  · -- explicit rhs annotation expanding to nothing: with one annotation
    -- the empty-entries error fires, with several the locate limit fires
    exfalso
    rw [heq] at hrhs
    cases tl with
    | nil =>
        simp [resolveStochasticRhs, locateAnnotationsLimited, hdecl, hent]
          at hrhs
    | cons hd2 tl2 =>
        simp [resolveStochasticRhs, locateAnnotationsLimited] at hrhs
  · exfalso
    rw [heq] at hmat
    cases tl with
    | nil =>
        simp [resolveStochasticMatrix, locateAnnotationsLimited, hdecl, hent]
          at hmat
    | cons hd2 tl2 =>
        simp [resolveStochasticMatrix, locateAnnotationsLimited] at hmat
  · exfalso
    simp [resolveStochasticRhs, locateAnnotationsLimited, hlen] at hrhs
  · exfalso
    simp [resolveStochasticMatrix, locateAnnotationsLimited, hlen] at hmat
  · exfalso
    simp [resolveStochasticObjective, locateAnnotationsLimited, hlen] at hobj

/-- Witness for C6 at a concrete input: a model with only a stochastic
variable-bounds annotation errors (both through the variable-bounds
rejection and, had it been absent, the no-annotations error). -/
theorem annotation_resolver_errors_witness :
    (0 < (1 : Nat) ∨
      (([] : List RhsAnnData) = [] ∧ ([] : List MatrixAnnData) = [] ∧
        ([] : List ObjAnnData) = []) ∨
      (∃ hd tl, ([] : List RhsAnnData) = hd :: tl ∧ hd.hasDecl = true ∧
        hd.entries = []) ∨
      (∃ hd tl, ([] : List MatrixAnnData) = hd :: tl ∧ hd.hasDecl = true ∧
        hd.entries = []) ∨
      1 < ([] : List RhsAnnData).length ∨
      1 < ([] : List MatrixAnnData).length ∨
      1 < ([] : List ObjAnnData).length) ∧
    isErr (checkAnnotations ⟨[], [], [], 1, []⟩) = true :=
  ⟨Or.inl (by decide),
    annotation_resolver_errors ⟨[], [], [], 1, []⟩ (Or.inl (by decide))⟩

/-! ## C1 — the per-scenario conversion and its restore discipline

Embedding of `_convert_external_setup` (`smpsutils.py`, lines 236-273)
and the model-mutating span of
`_convert_external_setup_without_cleanup` (lines 275-978).  Blocks are
flattened into the reference model (a single block): the cached
canonical-representation attributes `_gen_obj_canonical_repn`,
`_gen_con_canonical_repn` and `_canonical_repn` live directly on the
model.  The stage maps, symbol map and constraint symbol lists are
produced by the external LP/MPS writer and `map_variable_stages` /
`map_constraint_stages`; they enter as inputs. -/

/-- The sentinel written over stochastic coefficients and bounds
(`_deterministic_check_value = -99999999`, line 50). -/
def deterministicCheckValue : Int := -99999999

/-- Python's `str.startswith`, as an executable prefix test on the
character list (the library prefix test on `String` does not reduce in
the kernel). -/
def pyStartsWith (s pre : String) : Bool := pre.data.isPrefixOf s.data

/-- Lexicographic code-point comparison of character lists. -/
def charListLt : List Char → List Char → Bool
  | _, [] => false
  | [], _ :: _ => true
  | a :: as, b :: bs =>
      if a.toNat < b.toNat then true
      else if b.toNat < a.toNat then false
      else charListLt as bs

/-- Python's string less-than (code-point lexicographic order), used by
`sorted(symbols)`. -/
def pyStringLt (a b : String) : Bool := charListLt a.data b.data

/-- A cached canonical representation: `LinearCanonicalRepn` carries a
constant, a variable list and a coefficient list; anything else is
nonlinear and rejected. -/
inductive Repn where
  | linear (constant : Option Int) (vars : List Nat) (linearCoefs : List Int)
  | nonlinear
  deriving DecidableEq, Repr

/-- The `block._canonical_repn` cache: constraint/objective handle to cached
representation. -/
abbrev RepnMap := List (Nat × Repn)

/-- Mutable bound state of one constraint (`con._lower`, `con._upper`). -/
structure ConInfo where
  lower : Option Int
  upper : Option Int
  deriving DecidableEq, Repr

/-- The scenario's reference model as the conversion sees it:
constraint bounds, the representations the writer would regenerate from
the (immutable) expressions, and the three cached attributes that
`_convert_external_setup` saves and restores (`none` = attribute not
present on the object). -/
structure ExtModel where
  cons : List (Nat × ConInfo)
  srcRepns : RepnMap
  canonicalRepn : Option RepnMap
  genObj : Option Bool
  genCon : Option Bool
  deriving DecidableEq, Repr

/-- State threaded through the `.sto`-writing section: the model, the
`modified_constraint_lb` / `modified_constraint_ub` maps (lines
674-675), the three stochastic element counters and the emitted `.sto`
records. -/
structure ConvSt where
  model : ExtModel
  modifiedLb : List (Nat × Option Int)
  modifiedUb : List (Nat × Option Int)
  rhsCount : Nat
  matrixCount : Nat
  costCount : Nat
  sto : List (String × String × Int)
  deriving DecidableEq, Repr

/-- Assignment `con._lower = v`. -/
def setConLower (st : ConvSt) (cid : Nat) (v : Option Int) : ConvSt :=
  { st with model := { st.model with
      cons := alistModify st.model.cons cid (fun ci => { ci with lower := v }) } }

/-- Assignment `con._upper = v`. -/
def setConUpper (st : ConvSt) (cid : Nat) (v : Option Int) : ConvSt :=
  { st with model := { st.model with
      cons := alistModify st.model.cons cid (fun ci => { ci with upper := v }) } }

/-- Record `modified_constraint_lb[con] = v`. -/
def saveModLb (st : ConvSt) (cid : Nat) (v : Option Int) : ConvSt :=
  { st with modifiedLb := mapInsert st.modifiedLb cid v }

/-- Record `modified_constraint_ub[con] = v`. -/
def saveModUb (st : ConvSt) (cid : Nat) (v : Option Int) : ConvSt :=
  { st with modifiedUb := mapInsert st.modifiedUb cid v }

/-- Lookup `canonical_repn_cache[...][con]` on the current state. -/
def lookupRepn (st : ConvSt) (cid : Nat) : Option Repn :=
  match st.model.canonicalRepn with
  | none => none
  | some rm => rm.lookup cid

/-- In-place update of a cached representation object. -/
def setRepn (st : ConvSt) (cid : Nat) (r : Repn) : ConvSt :=
  { st with model := { st.model with
      canonicalRepn := st.model.canonicalRepn.map (fun rm => alistSet rm cid r) } }

/-- Counter increments and `.sto` record emission. -/
def incRhs (st : ConvSt) : ConvSt := { st with rhsCount := st.rhsCount + 1 }

def incMatrix (st : ConvSt) : ConvSt :=
  { st with matrixCount := st.matrixCount + 1 }

def incCost (st : ConvSt) : ConvSt := { st with costCount := st.costCount + 1 }

def pushSto (st : ConvSt) (a b : String) (v : Int) : ConvSt :=
  { st with sto := st.sto ++ [(a, b, v)] }

/-- Sequencing of state-mutating steps: an exception propagates with
the state it leaves behind. -/
def andThen (r : Except PyError Unit × ConvSt)
    (f : ConvSt → Except PyError Unit × ConvSt) :
    Except PyError Unit × ConvSt :=
  match r with
  | (.error e, s) => (.error e, s)
  | (.ok _, s) => f s

/-- Handling of one row symbol of a stochastic-rhs entry (lines
726-792): depending on the symbol prefix, write the `.sto` record from
the current bound and the (already defaulted) body constant, save the
bound in the modified map and overwrite it with the sentinel; `c_e_`
rows save and overwrite both bounds; `r_l_`/`r_u_` rows act only when
`include_bound` covers that side; an unrecognized prefix hits
`assert False`. -/
def processRhsLabel (cid : Nat) (ib : IncludeBound) (bodyConst : Int)
    (lbl : String) (st : ConvSt) : Except PyError Unit × ConvSt :=
  match st.model.cons.lookup cid with
  | none => (.error .keyError, st)
  | some ci =>
      if pyStartsWith lbl "c_e_" || pyStartsWith lbl "c_l_" then
        if coversLower ib = false then (.error .assertionError, st)
        else
          match ci.lower with
          | none => (.error .valueError, st)
          | some lo =>
              let st1 := pushSto (incRhs st) "RHS" lbl (lo - bodyConst)
              let st2 := saveModLb st1 cid ci.lower
              let st3 := setConLower st2 cid (some deterministicCheckValue)
              if pyStartsWith lbl "c_e_" then
                let st4 := saveModUb st3 cid ci.upper
                (.ok (), setConUpper st4 cid (some deterministicCheckValue))
              else (.ok (), st3)
      else if pyStartsWith lbl "r_l_" then
        if coversLower ib then
          match ci.lower with
          | none => (.error .valueError, st)
          | some lo =>
              let st1 := pushSto (incRhs st) "RHS" lbl (lo - bodyConst)
              let st2 := saveModLb st1 cid ci.lower
              (.ok (), setConLower st2 cid (some deterministicCheckValue))
        else (.ok (), st)
      else if pyStartsWith lbl "c_u_" then
        if coversUpper ib = false then (.error .assertionError, st)
        else
          match ci.upper with
          | none => (.error .valueError, st)
          | some up =>
              let st1 := pushSto (incRhs st) "RHS" lbl (up - bodyConst)
              let st2 := saveModUb st1 cid ci.upper
              (.ok (), setConUpper st2 cid (some deterministicCheckValue))
      else if pyStartsWith lbl "r_u_" then
        if coversUpper ib then
          match ci.upper with
          | none => (.error .valueError, st)
          | some up =>
              let st1 := pushSto (incRhs st) "RHS" lbl (up - bodyConst)
              let st2 := saveModUb st1 cid ci.upper
              (.ok (), setConUpper st2 cid (some deterministicCheckValue))
        else (.ok (), st)
      else (.error .assertionError, st)

/-- Loop over a constraint's row symbols. -/
def processRhsLabels (cid : Nat) (ib : IncludeBound) (bodyConst : Int) :
    List String → ConvSt → Except PyError Unit × ConvSt
  | [], st => (.ok (), st)
  | lbl :: rest, st =>
      andThen (processRhsLabel cid ib bodyConst lbl st)
        (processRhsLabels cid ib bodyConst rest)

/-- One stochastic-rhs entry (lines 692-792): the second-stage
cross-check for explicit annotations, linearity check of the cached
representation, zeroing of the body constant (`repn.constant = 0`
before the `None` default is applied to the saved copy), then the row
symbols of the constraint. -/
def processRhsEntry (emptyAnn : Bool) (secondIds : List Nat)
    (conLabels : List (Nat × List String)) (cid : Nat) (ib : IncludeBound)
    (st : ConvSt) : Except PyError Unit × ConvSt :=
  match annotatedConStageCheck emptyAnn cid secondIds with
  | .error e => (.error e, st)
  | .ok _ =>
      match lookupRepn st cid with
      | none => (.error .keyError, st)
      | some .nonlinear => (.error .runtimeError, st)
      | some (.linear c vars coefs) =>
          let bodyConst := c.getD 0
          let st1 := setRepn st cid (.linear (some 0) vars coefs)
          match conLabels.lookup cid with
          | none => (.error .keyError, st1)
          | some [] => (.error .assertionError, st1)
          | some (lbl :: rest) =>
              processRhsLabels cid ib bodyConst (lbl :: rest) st1

/-- The stochastic-rhs loop (lines 691-792). -/
def processRhsEntries (emptyAnn : Bool) (secondIds : List Nat)
    (conLabels : List (Nat × List String)) :
    List (Nat × IncludeBound) → ConvSt → Except PyError Unit × ConvSt
  | [], st => (.ok (), st)
  | (cid, ib) :: rest, st =>
      andThen (processRhsEntry emptyAnn secondIds conLabels cid ib st)
        (processRhsEntries emptyAnn secondIds conLabels rest)

/-- Rank of a variable in the column order
(`column_order[_v]`, `KeyError` when absent). -/
def columnRank : List Nat → Nat → Option Nat
  | [], _ => none
  | c :: rest, v =>
      if c = v then some 0 else (columnRank rest v).map (· + 1)

/-- Stable insertion used to mirror Python's stable `list.sort`. -/
def insertRanked (key : Nat → Nat) (x : Nat) : List Nat → List Nat
  | [] => [x]
  | y :: ys => if key x < key y then x :: y :: ys else y :: insertRanked key x ys

/-- The sort `var_list.sort(key=lambda v: column_order[v])` (lines 829-830):
`none` models the `KeyError` on a variable missing from the column
order. -/
def sortByColumnOrder (columnOrder : List Nat) (l : List Nat) :
    Option (List Nat) :=
  if l.all (fun v => (columnRank columnOrder v).isSome) then
    some (l.foldl
      (fun acc x => insertRanked (fun v => (columnRank columnOrder v).getD 0) x acc)
      [])
  else none

/-- Position of the first pair whose variable is `v` in
`zip(repn.variables, repn.linear)` (lines 836-844). -/
def findCoefIdx (pairs : List (Nat × Int)) (v : Nat) : Option Nat :=
  pairs.findIdx? (fun p => p.1 = v)

/-- The variable loop of a stochastic-matrix entry (lines 832-861):
each annotated variable must be unfixed and present in the cached
linear form; its coefficient is written to the `.sto` file once per row
symbol of the constraint and the pending copy of the coefficients gets
the sentinel at its position. -/
def processMatrixVars (symbols : List String) (repnVars : List Nat)
    (repnCoefs : List Int) (varSymbols : List (Nat × String))
    (fixedVars : List Nat) :
    List Nat → List Int → ConvSt → Except PyError (List Int) × ConvSt
  | [], newCoefs, st => (.ok newCoefs, st)
  | v :: vs, newCoefs, st =>
      if v ∈ fixedVars then (.error .assertionError, st)
      else
        match findCoefIdx (repnVars.zip repnCoefs) v with
        | none => (.error .runtimeError, st)
        | some i =>
            let coef := (((repnVars.zip repnCoefs).get? i).map Prod.snd).getD 0
            let newCoefs1 := newCoefs.set i deterministicCheckValue
            match varSymbols.lookup v with
            | none => (.error .keyError, st)
            | some varLabel =>
                let st1 := symbols.foldl
                  (fun acc lbl => pushSto (incMatrix acc) varLabel lbl coef) st
                processMatrixVars symbols repnVars repnCoefs varSymbols
                  fixedVars vs newCoefs1 st1

/-- One stochastic-matrix entry (lines 799-863): the second-stage
cross-check for explicit annotations, linearity check, non-empty
variable lists, column-order sort, the variable loop, and finally the
assignment `repn.linear = tuple(new_coefs)` — skipped when the loop
raised. -/
def processMatrixEntry (emptyAnn : Bool) (secondIds : List Nat)
    (conLabels : List (Nat × List String)) (columnOrder : List Nat)
    (varSymbols : List (Nat × String)) (fixedVars : List Nat) (cid : Nat)
    (varListOpt : Option (List Nat)) (st : ConvSt) :
    Except PyError Unit × ConvSt :=
  match annotatedConStageCheck emptyAnn cid secondIds with
  | .error e => (.error e, st)
  | .ok _ =>
      match lookupRepn st cid with
      | none => (.error .keyError, st)
      | some .nonlinear => (.error .runtimeError, st)
      | some (.linear c vars coefs) =>
          if vars.isEmpty then (.error .assertionError, st)
          else
            let varList := varListOpt.getD vars
            if varList.isEmpty then (.error .assertionError, st)
            else
              match conLabels.lookup cid with
              | none => (.error .keyError, st)
              | some symbols =>
                  match sortByColumnOrder columnOrder varList with
                  | none => (.error .keyError, st)
                  | some sortedVars =>
                      match processMatrixVars symbols vars coefs varSymbols
                        fixedVars sortedVars coefs st with
                      | (.error e, st1) => (.error e, st1)
                      | (.ok newCoefs, st1) =>
                          (.ok (), setRepn st1 cid (.linear c vars newCoefs))

/-- The stochastic-matrix loop (lines 798-863). -/
def processMatrixEntries (emptyAnn : Bool) (secondIds : List Nat)
    (conLabels : List (Nat × List String)) (columnOrder : List Nat)
    (varSymbols : List (Nat × String)) (fixedVars : List Nat) :
    List (Nat × Option (List Nat)) → ConvSt → Except PyError Unit × ConvSt
  | [], st => (.ok (), st)
  | (cid, varListOpt) :: rest, st =>
      andThen (processMatrixEntry emptyAnn secondIds conLabels columnOrder
          varSymbols fixedVars cid varListOpt st)
        (processMatrixEntries emptyAnn secondIds conLabels columnOrder
          varSymbols fixedVars rest)

/-- The variable loop of the stochastic-objective section
(lines 900-930): like the matrix loop but with the objective row symbol
as the single target row and the cost counter. -/
def processObjVars (objLabel : String) (repnVars : List Nat)
    (repnCoefs : List Int) (varSymbols : List (Nat × String)) :
    List Nat → List Int → ConvSt → Except PyError (List Int) × ConvSt
  | [], newCoefs, st => (.ok newCoefs, st)
  | v :: vs, newCoefs, st =>
      match findCoefIdx (repnVars.zip repnCoefs) v with
      | none => (.error .runtimeError, st)
      | some i =>
          let coef := (((repnVars.zip repnCoefs).get? i).map Prod.snd).getD 0
          let newCoefs1 := newCoefs.set i deterministicCheckValue
          match varSymbols.lookup v with
          | none => (.error .keyError, st)
          | some varLabel =>
              let st1 := pushSto (incCost st) varLabel objLabel coef
              processObjVars objLabel repnVars repnCoefs varSymbols vs
                newCoefs1 st1

/-- The body of the stochastic-objective section once the annotation
payload is known (lines 887-947): linearity check, variable-list
default, column-order sort, the `len > 0 or include_constant` assert,
the variable loop, `repn.linear = tuple(new_coefs)`, and for
`include_constant` the zeroing of the objective constant after its
original value is written to the `.sto` file. -/
def processObjectiveCore (objId : Nat) (objLabel : String)
    (columnOrder : List Nat) (varSymbols : List (Nat × String))
    (objVarsOpt : Option (List Nat)) (includeConstant : Bool) (st : ConvSt) :
    Except PyError Unit × ConvSt :=
  match lookupRepn st objId with
  | none => (.error .keyError, st)
  | some .nonlinear => (.error .runtimeError, st)
  | some (.linear c vars coefs) =>
      let objVars := objVarsOpt.getD vars
      match sortByColumnOrder columnOrder objVars with
      | none => (.error .keyError, st)
      | some sortedVars =>
          if sortedVars.isEmpty && !includeConstant then
            (.error .assertionError, st)
          else
            match processObjVars objLabel vars coefs varSymbols sortedVars
              coefs st with
            | (.error e, st1) => (.error e, st1)
            | (.ok newCoefs, st1) =>
                let st2 := setRepn st1 objId (.linear c vars newCoefs)
                if includeConstant then
                  let objConstant := c.getD 0
                  let st3 := setRepn st2 objId (.linear (some 0) vars newCoefs)
                  (.ok (),
                    pushSto (incCost st3) "ONE_VAR_CONSTANT" objLabel
                      objConstant)
                else (.ok (), st2)

/-- The stochastic-objective section (lines 869-947): absent annotation
does nothing; an explicit annotation that expanded to nothing raises;
otherwise the payload is handled by `processObjectiveCore`. -/
def processObjective (objAnn : Option ObjAnnData) (objId : Nat)
    (objLabel : String) (columnOrder : List Nat)
    (varSymbols : List (Nat × String)) (st : ConvSt) :
    Except PyError Unit × ConvSt :=
  match objAnn with
  | none => (.ok (), st)
  | some .declaredEmpty => (.error .runtimeError, st)
  | some (.declared objVarsOpt includeConstant) =>
      processObjectiveCore objId objLabel columnOrder varSymbols objVarsOpt
        includeConstant st
  | some (.defaultAnn objVarsOpt includeConstant) =>
      processObjectiveCore objId objLabel columnOrder varSymbols objVarsOpt
        includeConstant st

/-- The `finally`-less restore of lines 966-970: write every saved
lower bound back, then every saved upper bound.  This runs only on the
success path of `_convert_external_setup_without_cleanup`. -/
def restoreBounds (st : ConvSt) : ConvSt :=
  let st1 := st.modifiedLb.foldl (fun acc p => setConLower acc p.1 p.2) st
  st1.modifiedUb.foldl (fun acc p => setConUpper acc p.1 p.2) st1

/-- Target core problem format. -/
inductive FileFormat where
  | lp
  | mps
  deriving DecidableEq, Repr

/-- Line 619's guard on the first second-stage variable: the indexing
`StageToVariableMap[secondstage.name][0]` raises `IndexError` on an
empty list; the symbol-length test that follows writes one of two
records and cannot fail. -/
def timSecondVarCheck (ssVars : List (String × Nat)) : Except PyError Unit :=
  match ssVars with
  | [] => .error .indexError
  | _ :: _ => .ok ()

/-- The failure modes of the `.tim` writer's `mps` branch
(lines 599-624): indexing the first first-stage variable, the first
second-stage constraint and the first second-stage variable, plus the
asserts on the prefix of the chosen stage-2 row symbol (for a split
range constraint the lexically smallest symbol is examined, mirroring
`sorted(symbols)[0]`). -/
def timChecksMps (fsVars ssVars : List (String × Nat))
    (ssCons : List (Nat × List String)) : Except PyError Unit :=
  match fsVars with
  | [] => .error .indexError
  | _ :: _ =>
      match ssCons with
      | [] => .error .indexError
      | (_, symbols) :: _ =>
          match symbols with
          | [] => .error .indexError
          | [lbl] =>
              if pyStartsWith lbl "c_e_" || pyStartsWith lbl "c_l_"
                  || pyStartsWith lbl "c_u_" then
                timSecondVarCheck ssVars
              else .error .assertionError
          | s0 :: s1 :: srest =>
              let minLbl := (s1 :: srest).foldl
                (fun a b => if pyStringLt b a then b else a) s0
              if pyStartsWith minLbl "r_l_" || pyStartsWith minLbl "r_u_" then
                timSecondVarCheck ssVars
              else .error .assertionError

/-- Failure modes of the `.tim` writer (lines 596-655): the `lp` branch
only writes enumerations and cannot fail. -/
def timChecks (fmt : FileFormat) (fsVars ssVars : List (String × Nat))
    (ssCons : List (Nat × List String)) : Except PyError Unit :=
  match fmt with
  | .mps => timChecksMps fsVars ssVars ssCons
  | .lp => .ok ()

/-- The counts returned by
`_convert_external_setup_without_cleanup` (lines 972-978). -/
structure ExtCounts where
  fsVarCount : Nat
  ssVarCount : Nat
  fsConCount : Nat
  ssConCount : Nat
  costCount : Nat
  rhsCount : Nat
  matrixCount : Nat
  deriving DecidableEq, Repr

/-- Input of one per-scenario conversion that is produced outside the
mutating span: the located annotation objects, and the writer- and
stage-map-derived data (`StageToVariableMap` as (symbol, handle) pairs
per stage, `StageToConstraintMap` as (handle, row symbols) pairs per
stage, the variable symbol map, the set of fixed variables, the
objective handle and symbol, and the target format). -/
structure ExtInput where
  ann : AnnInput
  objId : Nat
  objLabel : String
  fsVars : List (String × Nat)
  ssVars : List (String × Nat)
  fsCons : List (Nat × List String)
  ssCons : List (Nat × List String)
  varSymbols : List (Nat × String)
  fixedVars : List Nat
  fileFormat : FileFormat
  deriving DecidableEq, Repr

/-- Embedding of `_convert_external_setup_without_cleanup` (lines 275-978), from the
annotation checks to the returned counts.  In order: annotation
location and validation; the `assert not hasattr(..., "_canonical_repn")`;
the first writer call, which regenerates the cached representations
from the expressions; the stage maps (inputs); disabling of
regeneration (`_gen_*_canonical_repn = False`); the objective
representation lookup; the column-order construction with its reserved
"RHS" check; the second writer call and the `.col`/`.row` emission; the
`.tim` failure modes; the three `.sto` sections that zero stochastic
data in place; and on success the restore of the modified constraint
bounds before returning the counts.  An error at any point returns the
model as the mutations left it. -/
def convertExternalSetupWithoutCleanup (m : ExtModel) (inp : ExtInput) :
    Except PyError ExtCounts × ExtModel :=
  match checkAnnotations inp.ann with
  | .error e => (.error e, m)
  | .ok res =>
      if m.canonicalRepn.isSome then (.error .assertionError, m)
      else
        let m2 : ExtModel := { m with
          canonicalRepn := some m.srcRepns
          genObj := some false
          genCon := some false }
        let secondIds := inp.ssCons.map Prod.fst
        match m.srcRepns.lookup inp.objId with
        | none => (.error .keyError, m2)
        | some _ =>
            match buildColumnOrder inp.fsVars inp.ssVars with
            | .error e => (.error e, m2)
            | .ok columnOrder =>
                let conLabels := inp.fsCons ++ inp.ssCons
                let colOut := writeColFile (inp.fsVars.map Prod.fst)
                  (inp.ssVars.map Prod.fst)
                let rowOut := writeRowFile inp.objLabel
                  (inp.fsCons.map Prod.snd) (inp.ssCons.map Prod.snd)
                match timChecks inp.fileFormat inp.fsVars inp.ssVars
                  inp.ssCons with
                | .error e => (.error e, m2)
                | .ok _ =>
                    let st0 : ConvSt :=
                      { model := m2, modifiedLb := [], modifiedUb := []
                        rhsCount := 0, matrixCount := 0, costCount := 0
                        sto := [] }
                    match (match res.rhs with
                      | none => ((.ok () : Except PyError Unit), st0)
                      | some (emptyAnn, entries) =>
                          processRhsEntries emptyAnn secondIds conLabels
                            entries st0) with
                    | (.error e, st1) => (.error e, st1.model)
                    | (.ok _, st1) =>
                        match (match res.matrix with
                          | none => ((.ok () : Except PyError Unit), st1)
                          | some (emptyAnn, entries) =>
                              processMatrixEntries emptyAnn secondIds
                                conLabels columnOrder inp.varSymbols
                                inp.fixedVars entries st1) with
                        | (.error e, st2) => (.error e, st2.model)
                        | (.ok _, st2) =>
                            match processObjective res.obj inp.objId
                              inp.objLabel columnOrder inp.varSymbols st2 with
                            | (.error e, st3) => (.error e, st3.model)
                            | (.ok _, st3) =>
                                let st4 := restoreBounds st3
                                (.ok { fsVarCount := colOut.2.1
                                       ssVarCount := colOut.2.2
                                       fsConCount := rowOut.2.1
                                       ssConCount := rowOut.2.2
                                       costCount := st4.costCount
                                       rhsCount := st4.rhsCount
                                       matrixCount := st4.matrixCount },
                                  st4.model)

/-- Embedding of `_convert_external_setup` (lines 236-273): cache and delete the
three canonical-representation attributes where present, run the
conversion, and in a `finally` block restore exactly the attributes
that had been cached — on success and on every exception path alike.
Attributes that did not exist before the call are not deleted, so
whatever the conversion left in them persists. -/
def convertExternalSetup (m : ExtModel) (inp : ExtInput) :
    Except PyError ExtCounts × ExtModel :=
  let cachedGenObj := m.genObj
  let cachedGenCon := m.genCon
  let cachedRepn := m.canonicalRepn
  let m0 : ExtModel := { m with
    genObj := none, genCon := none, canonicalRepn := none }
  let r := convertExternalSetupWithoutCleanup m0 inp
  let m1 := r.2
  (r.1,
    { m1 with
      genObj := match cachedGenObj with
        | some b => some b
        | none => m1.genObj
      genCon := match cachedGenCon with
        | some b => some b
        | none => m1.genCon
      canonicalRepn := match cachedRepn with
        | some rm => some rm
        | none => m1.canonicalRepn })

/-! ### Association-list lemmas for the restore proof -/

theorem lookup_alistModify {β : Type} (l : List (Nat × β)) (k k' : Nat)
    (f : β → β) :
    (alistModify l k f).lookup k' =
      if k' = k then (l.lookup k').map f else l.lookup k' := by
  by_cases h : k' = k
  · subst h
    rw [if_pos rfl]
    induction l with
    | nil => rfl
    | cons p t ih =>
        rw [alistModify_cons]
        by_cases hk : p.1 = k'
        · rw [if_pos hk, lookup_cons, lookup_cons, if_pos rfl, if_pos hk.symm]
          rfl
        · rw [if_neg hk, lookup_cons, lookup_cons,
            if_neg (fun he => hk he.symm), if_neg (fun he => hk he.symm)]
          exact ih
  · rw [if_neg h]
    exact lookup_alistModify_ne l k k' f h

theorem lookup_append_left_none {β : Type} (l1 l2 : List (Nat × β)) (k : Nat)
    (h : l1.lookup k = none) : (l1 ++ l2).lookup k = l2.lookup k := by
  induction l1 with
  | nil => rfl
  | cons p t ih =>
      rw [lookup_cons] at h
      by_cases hk : k = p.1
      · rw [if_pos hk] at h; cases h
      · rw [if_neg hk] at h
        rw [List.cons_append, lookup_cons, if_neg hk]
        exact ih h

theorem lookup_append_left_some {β : Type} (l1 l2 : List (Nat × β)) (k : Nat)
    (v : β) (h : l1.lookup k = some v) : (l1 ++ l2).lookup k = some v := by
  induction l1 with
  | nil => cases h
  | cons p t ih =>
      rw [lookup_cons] at h
      rw [List.cons_append, lookup_cons]
      by_cases hk : k = p.1
      · rwa [if_pos hk] at h ⊢
      · rw [if_neg hk] at h ⊢
        exact ih h

theorem mem_keys_of_lookup_isSome {β : Type} (l : List (Nat × β)) (k : Nat)
    (h : (l.lookup k).isSome) : k ∈ l.map Prod.fst := by
  induction l with
  | nil => simp [List.lookup] at h
  | cons p t ih =>
      rw [lookup_cons] at h
      by_cases hk : k = p.1
      · simp [hk]
      · rw [if_neg hk] at h
        simp only [List.map_cons, List.mem_cons]
        exact Or.inr (ih h)

theorem lookup_isSome_of_mem_keys {β : Type} (l : List (Nat × β)) (k : Nat)
    (h : k ∈ l.map Prod.fst) : (l.lookup k).isSome := by
  induction l with
  | nil => simp at h
  | cons p t ih =>
      rw [lookup_cons]
      by_cases hk : k = p.1
      · rw [if_pos hk]; rfl
      · rw [if_neg hk]
        rw [List.map_cons] at h
        rcases List.mem_cons.mp h with h1 | h1
        · exact absurd h1 hk
        · exact ih h1

theorem not_mem_keys_of_lookup_none {β : Type} (l : List (Nat × β)) (k : Nat)
    (h : l.lookup k = none) : k ∉ l.map Prod.fst := by
  intro hmem
  have := lookup_isSome_of_mem_keys l k hmem
  rw [h] at this
  cases this

theorem lookup_none_of_not_mem_keys {β : Type} (l : List (Nat × β)) (k : Nat)
    (h : k ∉ l.map Prod.fst) : l.lookup k = none := by
  cases hl : l.lookup k with
  | none => rfl
  | some v =>
      exact absurd (mem_keys_of_lookup_isSome l k (by rw [hl]; rfl)) h

theorem lookup_mapInsert_self {β : Type} (l : List (Nat × β)) (k : Nat)
    (v : β) : (mapInsert l k v).lookup k = some v := by
  unfold mapInsert
  by_cases h : (l.lookup k).isSome
  · rw [if_pos h]
    exact lookup_alistSet_self l k v h
  · rw [if_neg h]
    have hnone : l.lookup k = none := by
      cases hl : l.lookup k with
      | none => rfl
      | some v0 => rw [hl] at h; exact absurd rfl h
    rw [lookup_append_left_none l _ k hnone, lookup_cons]
    simp

theorem lookup_mapInsert_ne {β : Type} (l : List (Nat × β)) (k k' : Nat)
    (v : β) (h : k' ≠ k) : (mapInsert l k v).lookup k' = l.lookup k' := by
  unfold mapInsert
  by_cases hs : (l.lookup k).isSome
  · rw [if_pos hs]
    exact lookup_alistSet_ne l k k' v h
  · rw [if_neg hs]
    cases hl : l.lookup k' with
    | none =>
        rw [lookup_append_left_none l _ k' hl, lookup_cons, if_neg h]
        rfl
    | some v0 =>
        exact lookup_append_left_some l _ k' v0 hl

theorem mapInsert_keys_nodup {β : Type} (l : List (Nat × β)) (k : Nat) (v : β)
    (hnd : (l.map Prod.fst).Nodup) (hfresh : l.lookup k = none) :
    ((mapInsert l k v).map Prod.fst).Nodup := by
  unfold mapInsert
  have hns : ¬(l.lookup k).isSome := by rw [hfresh]; simp
  rw [if_neg hns]
  rw [List.map_append]
  simp only [List.map_cons, List.map_nil]
  rw [List.nodup_append]
  refine ⟨hnd, List.nodup_singleton k, ?_⟩
  intro a ha hb
  rcases List.mem_singleton.mp hb with rfl
  exact not_mem_keys_of_lookup_none l a hfresh ha

theorem mem_of_lookup_eq_some {β : Type} (l : List (Nat × β)) (k : Nat) (v : β)
    (h : l.lookup k = some v) : (k, v) ∈ l := by
  induction l with
  | nil => cases h
  | cons p t ih =>
      rw [lookup_cons] at h
      by_cases hk : k = p.1
      · rw [if_pos hk] at h
        injection h with h
        exact List.mem_cons.mpr (Or.inl (Prod.ext_iff.mpr ⟨hk, h.symm⟩))
      · rw [if_neg hk] at h
        exact List.mem_cons_of_mem _ (ih h)

theorem alist_ext {β : Type} (l1 l2 : List (Nat × β))
    (hk : l1.map Prod.fst = l2.map Prod.fst)
    (hnd : (l1.map Prod.fst).Nodup)
    (hl : ∀ k, l1.lookup k = l2.lookup k) : l1 = l2 := by
  induction l1 generalizing l2 with
  | nil =>
      cases l2 with
      | nil => rfl
      | cons q t2 => cases hk
  | cons p t1 ih =>
      cases l2 with
      | nil => cases hk
      | cons q t2 =>
          simp only [List.map_cons, List.cons.injEq] at hk
          obtain ⟨hpq, htk⟩ := hk
          have hv : p.2 = q.2 := by
            have h0 := hl p.1
            rw [lookup_cons, lookup_cons, if_pos rfl, if_pos hpq] at h0
            injection h0
          have hnd1 : (t1.map Prod.fst).Nodup := by
            rw [List.map_cons] at hnd
            exact (List.nodup_cons.mp hnd).2
          have hnmem : p.1 ∉ t1.map Prod.fst := by
            rw [List.map_cons] at hnd
            exact (List.nodup_cons.mp hnd).1
          have htail : ∀ k, t1.lookup k = t2.lookup k := by
            intro k
            by_cases hkp : k = p.1
            · rw [hkp]
              rw [lookup_none_of_not_mem_keys t1 p.1 hnmem,
                lookup_none_of_not_mem_keys t2 p.1 (by rw [← htk]; exact hnmem)]
            · have h0 := hl k
              rw [lookup_cons, lookup_cons, if_neg hkp,
                if_neg (by rw [← hpq]; exact hkp)] at h0
              exact h0
          have hteq := ih t2 htk hnd1 htail
          rw [hteq, show p = q from Prod.ext_iff.mpr ⟨hpq, hv⟩]

/-! ### The bound-restoration invariant -/

/-- Does a row symbol make the rhs loop rewrite the constraint's lower
bound? -/
def lowerLabel (s : String) : Bool :=
  pyStartsWith s "c_e_" || pyStartsWith s "c_l_" || pyStartsWith s "r_l_"

/-- Does a row symbol make the rhs loop rewrite the constraint's upper
bound? -/
def upperLabel (s : String) : Bool :=
  pyStartsWith s "c_e_" || pyStartsWith s "c_u_" || pyStartsWith s "r_u_"

/-- Well-formedness of a constraint's row-symbol list as the LP/MPS
writer produces it: one `c_*` symbol, or the `r_l_`/`r_u_` pair of a
split range constraint — in particular at most one symbol rewrites the
lower bound and at most one the upper bound. -/
def WellFormedLabels (ls : List String) : Prop :=
  ls.countP lowerLabel ≤ 1 ∧ ls.countP upperLabel ≤ 1

instance (ls : List String) : Decidable (WellFormedLabels ls) := by
  unfold WellFormedLabels
  infer_instance

/-- Invariant of the `.sto`-writing section relating the current
constraint bounds and the `modified_constraint_lb`/`..._ub` maps to the
bounds `orig` the model had when the section started: a saved value is
the original bound, and an unsaved bound is still the original. -/
structure BoundInv (orig cons : List (Nat × ConInfo))
    (mlb mub : List (Nat × Option Int)) : Prop where
  keys : cons.map Prod.fst = orig.map Prod.fst
  lbNodup : (mlb.map Prod.fst).Nodup
  ubNodup : (mub.map Prod.fst).Nodup
  lbSaved : ∀ k v, mlb.lookup k = some v →
    (orig.lookup k).map ConInfo.lower = some v
  ubSaved : ∀ k v, mub.lookup k = some v →
    (orig.lookup k).map ConInfo.upper = some v
  lbFresh : ∀ k, mlb.lookup k = none →
    (cons.lookup k).map ConInfo.lower = (orig.lookup k).map ConInfo.lower
  ubFresh : ∀ k, mub.lookup k = none →
    (cons.lookup k).map ConInfo.upper = (orig.lookup k).map ConInfo.upper

/-- The invariant at the start of the section: nothing modified yet. -/
theorem boundInv_init (orig : List (Nat × ConInfo)) :
    BoundInv orig orig [] [] := by
  refine ⟨rfl, List.nodup_nil, List.nodup_nil, ?_, ?_, ?_, ?_⟩
  · intro k v h; cases h
  · intro k v h; cases h
  · intro k _; rfl
  · intro k _; rfl

/-- Saving and sentinel-overwriting a not-yet-modified lower bound
preserves the invariant. -/
theorem boundInv_mutate_lower (orig cons : List (Nat × ConInfo))
    (mlb mub : List (Nat × Option Int)) (cid : Nat) (ci : ConInfo)
    (v : Option Int) (h : BoundInv orig cons mlb mub)
    (hci : cons.lookup cid = some ci)
    (hfresh : mlb.lookup cid = none) :
    BoundInv orig (alistModify cons cid (fun c => { c with lower := v }))
      (mapInsert mlb cid ci.lower) mub := by
  refine ⟨?_, ?_, h.ubNodup, ?_, h.ubSaved, ?_, ?_⟩
  · rw [alistModify_keys]; exact h.keys
  · exact mapInsert_keys_nodup _ _ _ h.lbNodup hfresh
  · intro k w hw
    by_cases hk : k = cid
    · subst hk
      rw [lookup_mapInsert_self] at hw
      injection hw with hw
      have h0 := h.lbFresh k hfresh
      rw [hci] at h0
      rw [← hw]
      exact h0.symm
    · rw [lookup_mapInsert_ne _ _ _ _ hk] at hw
      exact h.lbSaved k w hw
  · intro k hk0
    by_cases hk : k = cid
    · subst hk
      rw [lookup_mapInsert_self] at hk0
      cases hk0
    · rw [lookup_mapInsert_ne _ _ _ _ hk] at hk0
      rw [lookup_alistModify, if_neg hk]
      exact h.lbFresh k hk0
  · intro k hk0
    rw [lookup_alistModify]
    by_cases hk : k = cid
    · subst hk
      rw [if_pos rfl, hci]
      have h0 := h.ubFresh k hk0
      rw [hci] at h0
      simpa using h0
    · rw [if_neg hk]
      exact h.ubFresh k hk0

/-- Saving and sentinel-overwriting a not-yet-modified upper bound
preserves the invariant. -/
theorem boundInv_mutate_upper (orig cons : List (Nat × ConInfo))
    (mlb mub : List (Nat × Option Int)) (cid : Nat) (ci : ConInfo)
    (v : Option Int) (h : BoundInv orig cons mlb mub)
    (hci : cons.lookup cid = some ci)
    (hfresh : mub.lookup cid = none) :
    BoundInv orig (alistModify cons cid (fun c => { c with upper := v }))
      mlb (mapInsert mub cid ci.upper) := by
  refine ⟨?_, h.lbNodup, ?_, h.lbSaved, ?_, ?_, ?_⟩
  · rw [alistModify_keys]; exact h.keys
  · exact mapInsert_keys_nodup _ _ _ h.ubNodup hfresh
  · intro k w hw
    by_cases hk : k = cid
    · subst hk
      rw [lookup_mapInsert_self] at hw
      injection hw with hw
      have h0 := h.ubFresh k hfresh
      rw [hci] at h0
      rw [← hw]
      exact h0.symm
    · rw [lookup_mapInsert_ne _ _ _ _ hk] at hw
      exact h.ubSaved k w hw
  · intro k hk0
    rw [lookup_alistModify]
    by_cases hk : k = cid
    · subst hk
      rw [if_pos rfl, hci]
      have h0 := h.lbFresh k hk0
      rw [hci] at h0
      simpa using h0
    · rw [if_neg hk]
      exact h.lbFresh k hk0
  · intro k hk0
    by_cases hk : k = cid
    · subst hk
      rw [lookup_mapInsert_self] at hk0
      cases hk0
    · rw [lookup_mapInsert_ne _ _ _ _ hk] at hk0
      rw [lookup_alistModify, if_neg hk]
      exact h.ubFresh k hk0

/-- Effect of one row symbol of an rhs entry: the invariant is
preserved (also on the error paths), keys other than the entry's
constraint keep their modified-map status, and a symbol that does not
rewrite a bound leaves that modified map unchanged. -/
theorem processRhsLabel_inv (orig : List (Nat × ConInfo)) (cid : Nat)
    (ib : IncludeBound) (bodyConst : Int) (lbl : String) (st : ConvSt)
    (hInv : BoundInv orig st.model.cons st.modifiedLb st.modifiedUb)
    (hLb : lowerLabel lbl = true → st.modifiedLb.lookup cid = none)
    (hUb : upperLabel lbl = true → st.modifiedUb.lookup cid = none) :
    BoundInv orig (processRhsLabel cid ib bodyConst lbl st).2.model.cons
        (processRhsLabel cid ib bodyConst lbl st).2.modifiedLb
        (processRhsLabel cid ib bodyConst lbl st).2.modifiedUb ∧
      (∀ k, ¬k = cid →
        (processRhsLabel cid ib bodyConst lbl st).2.modifiedLb.lookup k =
            st.modifiedLb.lookup k ∧
          (processRhsLabel cid ib bodyConst lbl st).2.modifiedUb.lookup k =
            st.modifiedUb.lookup k) ∧
      (lowerLabel lbl = false →
        (processRhsLabel cid ib bodyConst lbl st).2.modifiedLb =
          st.modifiedLb) ∧
      (upperLabel lbl = false →
        (processRhsLabel cid ib bodyConst lbl st).2.modifiedUb =
          st.modifiedUb) := by
  unfold processRhsLabel
  cases hci : st.model.cons.lookup cid with
  | none => exact ⟨hInv, fun k _ => ⟨rfl, rfl⟩, fun _ => rfl, fun _ => rfl⟩
  | some ci =>
    obtain ⟨cil, ciu⟩ := ci
    simp only []
    by_cases h1 : (pyStartsWith lbl "c_e_" || pyStartsWith lbl "c_l_") = true
    · rw [if_pos h1]
      have hlowl : lowerLabel lbl = true := by
        unfold lowerLabel
        rw [h1, Bool.true_or]
      by_cases hcov : coversLower ib = false
      · rw [if_pos hcov]
        exact ⟨hInv, fun k _ => ⟨rfl, rfl⟩, fun _ => rfl, fun _ => rfl⟩
      · rw [if_neg hcov]
        cases cil with
        | none => exact ⟨hInv, fun k _ => ⟨rfl, rfl⟩, fun _ => rfl, fun _ => rfl⟩
        | some lo =>
          simp only []
          by_cases hce : pyStartsWith lbl "c_e_" = true
          · rw [if_pos hce]
            have hupl : upperLabel lbl = true := by
              unfold upperLabel
              rw [hce, Bool.true_or, Bool.true_or]
            have hInv1 := boundInv_mutate_lower orig st.model.cons
              st.modifiedLb st.modifiedUb cid ⟨some lo, ciu⟩
              (some deterministicCheckValue) hInv hci (hLb hlowl)
            have hci2 : (alistModify st.model.cons cid
                (fun c => { c with lower := some deterministicCheckValue
                  })).lookup cid =
                some ⟨some deterministicCheckValue, ciu⟩ := by
              rw [lookup_alistModify, if_pos rfl, hci]
              rfl
            have hInv2 := boundInv_mutate_upper orig _ _ _ cid
              ⟨some deterministicCheckValue, ciu⟩
              (some deterministicCheckValue) hInv1 hci2 (hUb hupl)
            refine ⟨hInv2, ?_, ?_, ?_⟩
            · intro k hk
              exact ⟨lookup_mapInsert_ne _ _ _ _ hk,
                lookup_mapInsert_ne _ _ _ _ hk⟩
            · intro hfl
              rw [hlowl] at hfl
              cases hfl
            · intro hfu
              rw [hupl] at hfu
              cases hfu
          · rw [if_neg hce]
            refine ⟨boundInv_mutate_lower orig st.model.cons st.modifiedLb
              st.modifiedUb cid ⟨some lo, ciu⟩ (some deterministicCheckValue)
              hInv hci (hLb hlowl), ?_, ?_, ?_⟩
            · intro k hk
              exact ⟨lookup_mapInsert_ne _ _ _ _ hk, rfl⟩
            · intro hfl
              rw [hlowl] at hfl
              cases hfl
            · intro _
              rfl
    · rw [if_neg h1]
      by_cases h2 : pyStartsWith lbl "r_l_" = true
      · rw [if_pos h2]
        have hlowl : lowerLabel lbl = true := by
          unfold lowerLabel
          rw [h2, Bool.or_true]
        by_cases hcov : coversLower ib = true
        · rw [if_pos hcov]
          cases cil with
          | none =>
              exact ⟨hInv, fun k _ => ⟨rfl, rfl⟩, fun _ => rfl, fun _ => rfl⟩
          | some lo =>
              simp only []
              refine ⟨boundInv_mutate_lower orig st.model.cons st.modifiedLb
                st.modifiedUb cid ⟨some lo, ciu⟩ (some deterministicCheckValue)
                hInv hci (hLb hlowl), ?_, ?_, ?_⟩
              · intro k hk
                exact ⟨lookup_mapInsert_ne _ _ _ _ hk, rfl⟩
              · intro hfl
                rw [hlowl] at hfl
                cases hfl
              · intro _
                rfl
        · rw [if_neg hcov]
          exact ⟨hInv, fun k _ => ⟨rfl, rfl⟩, fun _ => rfl, fun _ => rfl⟩
      · rw [if_neg h2]
        by_cases h3 : pyStartsWith lbl "c_u_" = true
        · rw [if_pos h3]
          have hupl : upperLabel lbl = true := by
            unfold upperLabel
            rw [h3, Bool.or_true, Bool.true_or]
          by_cases hcov : coversUpper ib = false
          · rw [if_pos hcov]
            exact ⟨hInv, fun k _ => ⟨rfl, rfl⟩, fun _ => rfl, fun _ => rfl⟩
          · rw [if_neg hcov]
            cases ciu with
            | none =>
                exact ⟨hInv, fun k _ => ⟨rfl, rfl⟩, fun _ => rfl, fun _ => rfl⟩
            | some up =>
                simp only []
                refine ⟨boundInv_mutate_upper orig st.model.cons st.modifiedLb
                  st.modifiedUb cid ⟨cil, some up⟩ (some deterministicCheckValue)
                  hInv hci (hUb hupl), ?_, ?_, ?_⟩
                · intro k hk
                  exact ⟨rfl, lookup_mapInsert_ne _ _ _ _ hk⟩
                · intro _
                  rfl
                · intro hfu
                  rw [hupl] at hfu
                  cases hfu
        · rw [if_neg h3]
          by_cases h4 : pyStartsWith lbl "r_u_" = true
          · rw [if_pos h4]
            have hupl : upperLabel lbl = true := by
              unfold upperLabel
              rw [h4, Bool.or_true]
            by_cases hcov : coversUpper ib = true
            · rw [if_pos hcov]
              cases ciu with
              | none =>
                  exact ⟨hInv, fun k _ => ⟨rfl, rfl⟩, fun _ => rfl,
                    fun _ => rfl⟩
              | some up =>
                  simp only []
                  refine ⟨boundInv_mutate_upper orig st.model.cons
                    st.modifiedLb st.modifiedUb cid ⟨cil, some up⟩
                    (some deterministicCheckValue) hInv hci
                    (hUb hupl), ?_, ?_, ?_⟩
                  · intro k hk
                    exact ⟨rfl, lookup_mapInsert_ne _ _ _ _ hk⟩
                  · intro _
                    rfl
                  · intro hfu
                    rw [hupl] at hfu
                    cases hfu
            · rw [if_neg hcov]
              exact ⟨hInv, fun k _ => ⟨rfl, rfl⟩, fun _ => rfl, fun _ => rfl⟩
          · rw [if_neg h4]
            exact ⟨hInv, fun k _ => ⟨rfl, rfl⟩, fun _ => rfl, fun _ => rfl⟩

/-- Effect of a whole row-symbol list: under the well-formedness
bounds — at most one lower-rewriting and one upper-rewriting symbol —
and freshness of the entry's constraint in the modified maps, the
invariant is preserved and other keys keep their modified-map status. -/
theorem processRhsLabels_inv (orig : List (Nat × ConInfo)) (cid : Nat)
    (ib : IncludeBound) (bodyConst : Int) (labels : List String) (st : ConvSt)
    (hInv : BoundInv orig st.model.cons st.modifiedLb st.modifiedUb)
    (hLb : st.modifiedLb.lookup cid = none ∨
      labels.countP lowerLabel = 0)
    (hUb : st.modifiedUb.lookup cid = none ∨
      labels.countP upperLabel = 0)
    (hLb1 : labels.countP lowerLabel ≤ 1)
    (hUb1 : labels.countP upperLabel ≤ 1) :
    BoundInv orig (processRhsLabels cid ib bodyConst labels st).2.model.cons
        (processRhsLabels cid ib bodyConst labels st).2.modifiedLb
        (processRhsLabels cid ib bodyConst labels st).2.modifiedUb ∧
      (∀ k, ¬k = cid →
        (processRhsLabels cid ib bodyConst labels st).2.modifiedLb.lookup k =
            st.modifiedLb.lookup k ∧
          (processRhsLabels cid ib bodyConst labels st).2.modifiedUb.lookup k =
            st.modifiedUb.lookup k) := by
  induction labels generalizing st with
  | nil => exact ⟨hInv, fun k _ => ⟨rfl, rfl⟩⟩
  | cons lbl rest ih =>
      have hcntL := List.countP_cons lowerLabel lbl rest
      have hcntU := List.countP_cons upperLabel lbl rest
      have hLbl : lowerLabel lbl = true → st.modifiedLb.lookup cid = none := by
        intro hl
        rcases hLb with h | h
        · exact h
        · rw [hcntL, if_pos hl] at h
          exfalso
          omega
      have hUbl : upperLabel lbl = true → st.modifiedUb.lookup cid = none := by
        intro hl
        rcases hUb with h | h
        · exact h
        · rw [hcntU, if_pos hl] at h
          exfalso
          omega
      obtain ⟨inv1, hkeys1, hflo, hfuo⟩ :=
        processRhsLabel_inv orig cid ib bodyConst lbl st hInv hLbl hUbl
      unfold processRhsLabels
      rcases hr : processRhsLabel cid ib bodyConst lbl st with ⟨r1, st1⟩
      rw [hr] at inv1 hkeys1 hflo hfuo
      cases r1 with
      | error e => exact ⟨inv1, hkeys1⟩
      | ok u =>
          have hstep : andThen (Except.ok u, st1)
              (processRhsLabels cid ib bodyConst rest) =
              processRhsLabels cid ib bodyConst rest st1 := rfl
          rw [hstep]
          have hLbRest : st1.modifiedLb.lookup cid = none ∨
              rest.countP lowerLabel = 0 := by
            by_cases hl : lowerLabel lbl = true
            · right
              rw [hcntL, if_pos hl] at hLb1
              omega
            · have hst1 : st1.modifiedLb = st.modifiedLb :=
                hflo (by simpa using hl)
              rcases hLb with h | h
              · left; rw [hst1]; exact h
              · right
                rw [hcntL] at h
                omega
          have hUbRest : st1.modifiedUb.lookup cid = none ∨
              rest.countP upperLabel = 0 := by
            by_cases hl : upperLabel lbl = true
            · right
              rw [hcntU, if_pos hl] at hUb1
              omega
            · have hst1 : st1.modifiedUb = st.modifiedUb :=
                hfuo (by simpa using hl)
              rcases hUb with h | h
              · left; rw [hst1]; exact h
              · right
                rw [hcntU] at h
                omega
          have hLb1Rest : rest.countP lowerLabel ≤ 1 := by
            rw [hcntL] at hLb1
            omega
          have hUb1Rest : rest.countP upperLabel ≤ 1 := by
            rw [hcntU] at hUb1
            omega
          obtain ⟨inv2, hkeys2⟩ := ih st1 inv1 hLbRest hUbRest hLb1Rest
            hUb1Rest
          refine ⟨inv2, ?_⟩
          intro k hk
          obtain ⟨hk2l, hk2u⟩ := hkeys2 k hk
          obtain ⟨hk1l, hk1u⟩ := hkeys1 k hk
          exact ⟨hk2l.trans hk1l, hk2u.trans hk1u⟩

/-- Effect of one rhs entry on the invariant: the stage check, repn
lookup and symbol lookup leave the bound state alone, and the row
symbols are covered by `processRhsLabels_inv`. -/
theorem processRhsEntry_inv (orig : List (Nat × ConInfo)) (emptyAnn : Bool)
    (secondIds : List Nat) (conLabels : List (Nat × List String)) (cid : Nat)
    (ib : IncludeBound) (st : ConvSt)
    (hInv : BoundInv orig st.model.cons st.modifiedLb st.modifiedUb)
    (hfreshL : st.modifiedLb.lookup cid = none)
    (hfreshU : st.modifiedUb.lookup cid = none)
    (hwf : ∀ p ∈ conLabels, WellFormedLabels p.2) :
    BoundInv orig
        (processRhsEntry emptyAnn secondIds conLabels cid ib st).2.model.cons
        (processRhsEntry emptyAnn secondIds conLabels cid ib st).2.modifiedLb
        (processRhsEntry emptyAnn secondIds conLabels cid ib st).2.modifiedUb ∧
      (∀ k, ¬k = cid →
        (processRhsEntry emptyAnn secondIds conLabels cid ib
              st).2.modifiedLb.lookup k =
            st.modifiedLb.lookup k ∧
          (processRhsEntry emptyAnn secondIds conLabels cid ib
              st).2.modifiedUb.lookup k =
            st.modifiedUb.lookup k) := by
  unfold processRhsEntry
  cases annotatedConStageCheck emptyAnn cid secondIds with
  | error e => exact ⟨hInv, fun k _ => ⟨rfl, rfl⟩⟩
  | ok u =>
      simp only []
      cases lookupRepn st cid with
      | none => exact ⟨hInv, fun k _ => ⟨rfl, rfl⟩⟩
      | some r =>
          cases r with
          | nonlinear => exact ⟨hInv, fun k _ => ⟨rfl, rfl⟩⟩
          | linear c vars coefs =>
              simp only []
              cases hcl : conLabels.lookup cid with
              | none => exact ⟨hInv, fun k _ => ⟨rfl, rfl⟩⟩
              | some labels =>
                  cases labels with
                  | nil => exact ⟨hInv, fun k _ => ⟨rfl, rfl⟩⟩
                  | cons lbl rest =>
                      simp only []
                      have hmem := mem_of_lookup_eq_some conLabels cid
                        (lbl :: rest) hcl
                      obtain ⟨hwl, hwu⟩ := hwf (cid, lbl :: rest) hmem
                      exact processRhsLabels_inv orig cid ib (c.getD 0)
                        (lbl :: rest)
                        (setRepn st cid (.linear (some 0) vars coefs)) hInv
                        (Or.inl hfreshL) (Or.inl hfreshU) hwl hwu

/-- Effect of the whole rhs loop: with pairwise distinct entry
constraints that are all fresh in the modified maps and well-formed
symbol lists, the invariant holds afterwards — on success and on the
exception paths alike. -/
theorem processRhsEntries_inv (orig : List (Nat × ConInfo)) (emptyAnn : Bool)
    (secondIds : List Nat) (conLabels : List (Nat × List String))
    (entries : List (Nat × IncludeBound)) (st : ConvSt)
    (hInv : BoundInv orig st.model.cons st.modifiedLb st.modifiedUb)
    (hnd : (entries.map Prod.fst).Nodup)
    (hfresh : ∀ cid ∈ entries.map Prod.fst,
      st.modifiedLb.lookup cid = none ∧ st.modifiedUb.lookup cid = none)
    (hwf : ∀ p ∈ conLabels, WellFormedLabels p.2) :
    BoundInv orig
      (processRhsEntries emptyAnn secondIds conLabels entries st).2.model.cons
      (processRhsEntries emptyAnn secondIds conLabels entries st).2.modifiedLb
      (processRhsEntries emptyAnn secondIds conLabels entries
        st).2.modifiedUb := by
  induction entries generalizing st with
  | nil => exact hInv
  | cons e rest ih =>
      obtain ⟨cid, ib⟩ := e
      obtain ⟨hfL, hfU⟩ := hfresh cid (by simp)
      obtain ⟨inv1, hkeys1⟩ := processRhsEntry_inv orig emptyAnn secondIds
        conLabels cid ib st hInv hfL hfU hwf
      unfold processRhsEntries
      rcases hr : processRhsEntry emptyAnn secondIds conLabels cid ib st
        with ⟨r1, st1⟩
      rw [hr] at inv1 hkeys1
      cases r1 with
      | error e0 => exact inv1
      | ok u =>
          have hstep : andThen (Except.ok u, st1)
              (processRhsEntries emptyAnn secondIds conLabels rest) =
              processRhsEntries emptyAnn secondIds conLabels rest st1 := rfl
          rw [hstep]
          have hndRest : (rest.map Prod.fst).Nodup := by
        -- tail of a Nodup cons
            rw [List.map_cons] at hnd
            exact (List.nodup_cons.mp hnd).2
          have hnotmem : cid ∉ rest.map Prod.fst := by
            rw [List.map_cons] at hnd
            exact (List.nodup_cons.mp hnd).1
          refine ih st1 inv1 hndRest ?_
          intro cid0 hcid0
          have hne : ¬cid0 = cid := fun he => hnotmem (he ▸ hcid0)
          obtain ⟨h1, h2⟩ := hkeys1 cid0 hne
          obtain ⟨h3, h4⟩ := hfresh cid0 (by simp [hcid0])
          exact ⟨h1.trans h3, h2.trans h4⟩

/-! ### The matrix and objective sections do not touch bounds -/

theorem foldl_pushSto_fields (symbols : List String) (varLabel : String)
    (coef : Int) (st : ConvSt) :
    (symbols.foldl (fun acc lbl => pushSto (incMatrix acc) varLabel lbl coef)
        st).model = st.model ∧
      (symbols.foldl (fun acc lbl => pushSto (incMatrix acc) varLabel lbl coef)
        st).modifiedLb = st.modifiedLb ∧
      (symbols.foldl (fun acc lbl => pushSto (incMatrix acc) varLabel lbl coef)
        st).modifiedUb = st.modifiedUb := by
  induction symbols generalizing st with
  | nil => exact ⟨rfl, rfl, rfl⟩
  | cons s rest ih =>
      exact ih (pushSto (incMatrix st) varLabel s coef)

theorem processMatrixVars_fields (symbols : List String) (repnVars : List Nat)
    (repnCoefs : List Int) (varSymbols : List (Nat × String))
    (fixedVars : List Nat) (vl : List Nat) (newCoefs : List Int)
    (st : ConvSt) :
    (processMatrixVars symbols repnVars repnCoefs varSymbols fixedVars vl
        newCoefs st).2.model.cons = st.model.cons ∧
      (processMatrixVars symbols repnVars repnCoefs varSymbols fixedVars vl
        newCoefs st).2.modifiedLb = st.modifiedLb ∧
      (processMatrixVars symbols repnVars repnCoefs varSymbols fixedVars vl
        newCoefs st).2.modifiedUb = st.modifiedUb := by
  induction vl generalizing newCoefs st with
  | nil => exact ⟨rfl, rfl, rfl⟩
  | cons v vs ih =>
      unfold processMatrixVars
      by_cases hf : v ∈ fixedVars
      · rw [if_pos hf]
        exact ⟨rfl, rfl, rfl⟩
      · rw [if_neg hf]
        cases findCoefIdx (repnVars.zip repnCoefs) v with
        | none => exact ⟨rfl, rfl, rfl⟩
        | some i =>
            simp only []
            cases varSymbols.lookup v with
            | none => exact ⟨rfl, rfl, rfl⟩
            | some varLabel =>
                simp only []
                obtain ⟨hm, hl, hu⟩ := foldl_pushSto_fields symbols varLabel
                  ((((repnVars.zip repnCoefs).get? i).map Prod.snd).getD 0) st
                obtain ⟨hm2, hl2, hu2⟩ := ih
                  (newCoefs.set i deterministicCheckValue)
                  (symbols.foldl (fun acc lbl => pushSto (incMatrix acc)
                    varLabel lbl
                    ((((repnVars.zip repnCoefs).get? i).map Prod.snd).getD 0))
                    st)
                refine ⟨?_, ?_, ?_⟩
                · rw [hm2, hm]
                · rw [hl2, hl]
                · rw [hu2, hu]

theorem processMatrixEntry_fields (emptyAnn : Bool) (secondIds : List Nat)
    (conLabels : List (Nat × List String)) (columnOrder : List Nat)
    (varSymbols : List (Nat × String)) (fixedVars : List Nat) (cid : Nat)
    (varListOpt : Option (List Nat)) (st : ConvSt) :
    (processMatrixEntry emptyAnn secondIds conLabels columnOrder varSymbols
        fixedVars cid varListOpt st).2.model.cons = st.model.cons ∧
      (processMatrixEntry emptyAnn secondIds conLabels columnOrder varSymbols
        fixedVars cid varListOpt st).2.modifiedLb = st.modifiedLb ∧
      (processMatrixEntry emptyAnn secondIds conLabels columnOrder varSymbols
        fixedVars cid varListOpt st).2.modifiedUb = st.modifiedUb := by
  unfold processMatrixEntry
  cases annotatedConStageCheck emptyAnn cid secondIds with
  | error e => exact ⟨rfl, rfl, rfl⟩
  | ok u =>
      simp only []
      cases lookupRepn st cid with
      | none => exact ⟨rfl, rfl, rfl⟩
      | some r =>
          cases r with
          | nonlinear => exact ⟨rfl, rfl, rfl⟩
          | linear c vars coefs =>
              simp only []
              by_cases hv : vars.isEmpty = true
              · rw [if_pos hv]
                exact ⟨rfl, rfl, rfl⟩
              · rw [if_neg hv]
                by_cases hv2 : (varListOpt.getD vars).isEmpty = true
                · rw [if_pos hv2]
                  exact ⟨rfl, rfl, rfl⟩
                · rw [if_neg hv2]
                  cases conLabels.lookup cid with
                  | none => exact ⟨rfl, rfl, rfl⟩
                  | some symbols =>
                      simp only []
                      cases sortByColumnOrder columnOrder
                        (varListOpt.getD vars) with
                      | none => exact ⟨rfl, rfl, rfl⟩
                      | some sortedVars =>
                          simp only []
                          rcases hr : processMatrixVars symbols vars coefs
                            varSymbols fixedVars sortedVars coefs st
                            with ⟨r1, st1⟩
                          obtain ⟨hm, hl, hu⟩ := processMatrixVars_fields
                            symbols vars coefs varSymbols fixedVars sortedVars
                            coefs st
                          rw [hr] at hm hl hu
                          cases r1 with
                          | error e => exact ⟨hm, hl, hu⟩
                          | ok newCoefs => exact ⟨hm, hl, hu⟩

theorem processMatrixEntries_fields (emptyAnn : Bool) (secondIds : List Nat)
    (conLabels : List (Nat × List String)) (columnOrder : List Nat)
    (varSymbols : List (Nat × String)) (fixedVars : List Nat)
    (entries : List (Nat × Option (List Nat))) (st : ConvSt) :
    (processMatrixEntries emptyAnn secondIds conLabels columnOrder varSymbols
        fixedVars entries st).2.model.cons = st.model.cons ∧
      (processMatrixEntries emptyAnn secondIds conLabels columnOrder
        varSymbols fixedVars entries st).2.modifiedLb = st.modifiedLb ∧
      (processMatrixEntries emptyAnn secondIds conLabels columnOrder
        varSymbols fixedVars entries st).2.modifiedUb = st.modifiedUb := by
  induction entries generalizing st with
  | nil => exact ⟨rfl, rfl, rfl⟩
  | cons e rest ih =>
      obtain ⟨cid, varListOpt⟩ := e
      unfold processMatrixEntries
      rcases hr : processMatrixEntry emptyAnn secondIds conLabels columnOrder
        varSymbols fixedVars cid varListOpt st with ⟨r1, st1⟩
      obtain ⟨hm, hl, hu⟩ := processMatrixEntry_fields emptyAnn secondIds
        conLabels columnOrder varSymbols fixedVars cid varListOpt st
      rw [hr] at hm hl hu
      cases r1 with
      | error e0 => exact ⟨hm, hl, hu⟩
      | ok u =>
          have hstep : andThen (Except.ok u, st1)
              (processMatrixEntries emptyAnn secondIds conLabels columnOrder
                varSymbols fixedVars rest) =
              processMatrixEntries emptyAnn secondIds conLabels columnOrder
                varSymbols fixedVars rest st1 := rfl
          rw [hstep]
          obtain ⟨hm2, hl2, hu2⟩ := ih st1
          exact ⟨hm2.trans hm, hl2.trans hl, hu2.trans hu⟩

theorem processObjVars_fields (objLabel : String) (repnVars : List Nat)
    (repnCoefs : List Int) (varSymbols : List (Nat × String)) (vl : List Nat)
    (newCoefs : List Int) (st : ConvSt) :
    (processObjVars objLabel repnVars repnCoefs varSymbols vl newCoefs
        st).2.model.cons = st.model.cons ∧
      (processObjVars objLabel repnVars repnCoefs varSymbols vl newCoefs
        st).2.modifiedLb = st.modifiedLb ∧
      (processObjVars objLabel repnVars repnCoefs varSymbols vl newCoefs
        st).2.modifiedUb = st.modifiedUb := by
  induction vl generalizing newCoefs st with
  | nil => exact ⟨rfl, rfl, rfl⟩
  | cons v vs ih =>
      unfold processObjVars
      cases findCoefIdx (repnVars.zip repnCoefs) v with
      | none => exact ⟨rfl, rfl, rfl⟩
      | some i =>
          simp only []
          cases varSymbols.lookup v with
          | none => exact ⟨rfl, rfl, rfl⟩
          | some varLabel =>
              simp only []
              exact ih (newCoefs.set i deterministicCheckValue) _

theorem processObjectiveCore_fields (objId : Nat) (objLabel : String)
    (columnOrder : List Nat) (varSymbols : List (Nat × String))
    (objVarsOpt : Option (List Nat)) (includeConstant : Bool) (st : ConvSt) :
    (processObjectiveCore objId objLabel columnOrder varSymbols objVarsOpt
        includeConstant st).2.model.cons = st.model.cons ∧
      (processObjectiveCore objId objLabel columnOrder varSymbols objVarsOpt
        includeConstant st).2.modifiedLb = st.modifiedLb ∧
      (processObjectiveCore objId objLabel columnOrder varSymbols objVarsOpt
        includeConstant st).2.modifiedUb = st.modifiedUb := by
  unfold processObjectiveCore
  cases lookupRepn st objId with
  | none => exact ⟨rfl, rfl, rfl⟩
  | some r =>
      cases r with
      | nonlinear => exact ⟨rfl, rfl, rfl⟩
      | linear c vars coefs =>
          simp only []
          cases sortByColumnOrder columnOrder (objVarsOpt.getD vars) with
          | none => exact ⟨rfl, rfl, rfl⟩
          | some sortedVars =>
              simp only []
              by_cases hemp : (sortedVars.isEmpty && !includeConstant) = true
              · rw [if_pos hemp]
                exact ⟨rfl, rfl, rfl⟩
              · rw [if_neg hemp]
                rcases hr : processObjVars objLabel vars coefs varSymbols
                  sortedVars coefs st with ⟨r1, st1⟩
                obtain ⟨hm, hl, hu⟩ := processObjVars_fields objLabel vars
                  coefs varSymbols sortedVars coefs st
                rw [hr] at hm hl hu
                cases r1 with
                | error e => exact ⟨hm, hl, hu⟩
                | ok newCoefs =>
                    simp only []
                    by_cases hic : includeConstant = true
                    · rw [if_pos hic]
                      exact ⟨hm, hl, hu⟩
                    · rw [if_neg hic]
                      exact ⟨hm, hl, hu⟩

theorem processObjective_fields (objAnn : Option ObjAnnData) (objId : Nat)
    (objLabel : String) (columnOrder : List Nat)
    (varSymbols : List (Nat × String)) (st : ConvSt) :
    (processObjective objAnn objId objLabel columnOrder varSymbols
        st).2.model.cons = st.model.cons ∧
      (processObjective objAnn objId objLabel columnOrder varSymbols
        st).2.modifiedLb = st.modifiedLb ∧
      (processObjective objAnn objId objLabel columnOrder varSymbols
        st).2.modifiedUb = st.modifiedUb := by
  cases objAnn with
  | none => exact ⟨rfl, rfl, rfl⟩
  | some a =>
      cases a with
      | declaredEmpty => exact ⟨rfl, rfl, rfl⟩
      | declared objVarsOpt includeConstant =>
          exact processObjectiveCore_fields objId objLabel columnOrder
            varSymbols objVarsOpt includeConstant st
      | defaultAnn objVarsOpt includeConstant =>
          exact processObjectiveCore_fields objId objLabel columnOrder
            varSymbols objVarsOpt includeConstant st

/-! ### The restore loops of lines 966-970 -/

theorem foldl_setConLower_misc (pairs : List (Nat × Option Int)) (st : ConvSt) :
    (pairs.foldl (fun acc p => setConLower acc p.1 p.2) st).modifiedLb =
        st.modifiedLb ∧
      (pairs.foldl (fun acc p => setConLower acc p.1 p.2) st).modifiedUb =
        st.modifiedUb ∧
      (pairs.foldl (fun acc p => setConLower acc p.1 p.2)
          st).model.cons.map Prod.fst =
        st.model.cons.map Prod.fst := by
  induction pairs generalizing st with
  | nil => exact ⟨rfl, rfl, rfl⟩
  | cons p rest ih =>
      simp only [List.foldl_cons]
      obtain ⟨h1, h2, h3⟩ := ih (setConLower st p.1 p.2)
      refine ⟨h1, h2, h3.trans ?_⟩
      show (alistModify st.model.cons p.1
        (fun ci => { ci with lower := p.2 })).map Prod.fst =
        st.model.cons.map Prod.fst
      exact alistModify_keys _ _ _

theorem foldl_setConUpper_misc (pairs : List (Nat × Option Int)) (st : ConvSt) :
    (pairs.foldl (fun acc p => setConUpper acc p.1 p.2) st).modifiedLb =
        st.modifiedLb ∧
      (pairs.foldl (fun acc p => setConUpper acc p.1 p.2) st).modifiedUb =
        st.modifiedUb ∧
      (pairs.foldl (fun acc p => setConUpper acc p.1 p.2)
          st).model.cons.map Prod.fst =
        st.model.cons.map Prod.fst := by
  induction pairs generalizing st with
  | nil => exact ⟨rfl, rfl, rfl⟩
  | cons p rest ih =>
      simp only [List.foldl_cons]
      obtain ⟨h1, h2, h3⟩ := ih (setConUpper st p.1 p.2)
      refine ⟨h1, h2, h3.trans ?_⟩
      show (alistModify st.model.cons p.1
        (fun ci => { ci with upper := p.2 })).map Prod.fst =
        st.model.cons.map Prod.fst
      exact alistModify_keys _ _ _

theorem foldl_setConLower_lookup (pairs : List (Nat × Option Int))
    (st : ConvSt) (k : Nat) (hnd : (pairs.map Prod.fst).Nodup) :
    (pairs.foldl (fun acc p => setConLower acc p.1 p.2)
        st).model.cons.lookup k =
      (match pairs.lookup k with
        | some v => (st.model.cons.lookup k).map
            (fun ci => { ci with lower := v })
        | none => st.model.cons.lookup k) := by
  induction pairs generalizing st with
  | nil => rfl
  | cons p rest ih =>
      obtain ⟨k0, v0⟩ := p
      have hnd1 : (rest.map Prod.fst).Nodup := by
        rw [List.map_cons] at hnd
        exact (List.nodup_cons.mp hnd).2
      have hnm : k0 ∉ rest.map Prod.fst := by
        rw [List.map_cons] at hnd
        exact (List.nodup_cons.mp hnd).1
      show (rest.foldl (fun acc p => setConLower acc p.1 p.2)
          (setConLower st k0 v0)).model.cons.lookup k = _
      rw [ih (setConLower st k0 v0) hnd1]
      rw [lookup_cons]
      by_cases hk : k = k0
      · rw [if_pos hk, lookup_none_of_not_mem_keys rest k (hk ▸ hnm)]
        show (alistModify st.model.cons k0
            (fun ci => { ci with lower := v0 })).lookup k = _
        rw [lookup_alistModify, if_pos hk, hk]
      · rw [if_neg hk]
        have hset : (setConLower st k0 v0).model.cons.lookup k =
            st.model.cons.lookup k := by
          show (alistModify st.model.cons k0
              (fun ci => { ci with lower := v0 })).lookup k = _
          rw [lookup_alistModify, if_neg hk]
        rw [hset]

theorem foldl_setConUpper_lookup (pairs : List (Nat × Option Int))
    (st : ConvSt) (k : Nat) (hnd : (pairs.map Prod.fst).Nodup) :
    (pairs.foldl (fun acc p => setConUpper acc p.1 p.2)
        st).model.cons.lookup k =
      (match pairs.lookup k with
        | some v => (st.model.cons.lookup k).map
            (fun ci => { ci with upper := v })
        | none => st.model.cons.lookup k) := by
  induction pairs generalizing st with
  | nil => rfl
  | cons p rest ih =>
      obtain ⟨k0, v0⟩ := p
      have hnd1 : (rest.map Prod.fst).Nodup := by
        rw [List.map_cons] at hnd
        exact (List.nodup_cons.mp hnd).2
      have hnm : k0 ∉ rest.map Prod.fst := by
        rw [List.map_cons] at hnd
        exact (List.nodup_cons.mp hnd).1
      show (rest.foldl (fun acc p => setConUpper acc p.1 p.2)
          (setConUpper st k0 v0)).model.cons.lookup k = _
      rw [ih (setConUpper st k0 v0) hnd1]
      rw [lookup_cons]
      by_cases hk : k = k0
      · rw [if_pos hk, lookup_none_of_not_mem_keys rest k (hk ▸ hnm)]
        show (alistModify st.model.cons k0
            (fun ci => { ci with upper := v0 })).lookup k = _
        rw [lookup_alistModify, if_pos hk, hk]
      · rw [if_neg hk]
        have hset : (setConUpper st k0 v0).model.cons.lookup k =
            st.model.cons.lookup k := by
          show (alistModify st.model.cons k0
              (fun ci => { ci with upper := v0 })).lookup k = _
          rw [lookup_alistModify, if_neg hk]
        rw [hset]

/-- The restore of lines 966-970 undoes every sentinel write: under the
invariant, the constraint bounds after `restoreBounds` are exactly the
bounds the model had when the `.sto` section started. -/
theorem restoreBounds_restores (orig : List (Nat × ConInfo)) (st : ConvSt)
    (hInv : BoundInv orig st.model.cons st.modifiedLb st.modifiedUb)
    (hnd : (orig.map Prod.fst).Nodup) :
    (restoreBounds st).model.cons = orig := by
  unfold restoreBounds
  obtain ⟨hL1, hL2, hL3⟩ := foldl_setConLower_misc st.modifiedLb st
  apply alist_ext
  · obtain ⟨hU1, hU2, hU3⟩ := foldl_setConUpper_misc
      (st.modifiedLb.foldl (fun acc p => setConLower acc p.1 p.2)
        st).modifiedUb
      (st.modifiedLb.foldl (fun acc p => setConLower acc p.1 p.2) st)
    rw [hU3, hL3]
    exact hInv.keys
  · obtain ⟨hU1, hU2, hU3⟩ := foldl_setConUpper_misc
      (st.modifiedLb.foldl (fun acc p => setConLower acc p.1 p.2)
        st).modifiedUb
      (st.modifiedLb.foldl (fun acc p => setConLower acc p.1 p.2) st)
    rw [hU3, hL3, hInv.keys]
    exact hnd
  · intro k
    rw [foldl_setConUpper_lookup _ _ k (by rw [hL2]; exact hInv.ubNodup)]
    rw [hL2]
    rw [foldl_setConLower_lookup _ _ k hInv.lbNodup]
    cases hub : st.modifiedUb.lookup k with
    | some vU =>
        cases hlb : st.modifiedLb.lookup k with
        | some vL =>
            have hsL := hInv.lbSaved k vL hlb
            have hsU := hInv.ubSaved k vU hub
            cases horig : orig.lookup k with
            | none => rw [horig] at hsL; cases hsL
            | some ciO =>
                rw [horig] at hsL hsU
                have hsome : (st.model.cons.lookup k).isSome := by
                  apply lookup_isSome_of_mem_keys
                  rw [hInv.keys]
                  exact mem_keys_of_lookup_isSome orig k (by rw [horig]; rfl)
                cases hcur : st.model.cons.lookup k with
                | none => rw [hcur] at hsome; cases hsome
                | some ciC =>
                    obtain ⟨lo, up⟩ := ciO
                    simp only [Option.map_some', Option.some.injEq] at hsL hsU
                    simp only [Option.map_some']
                    rw [← hsL, ← hsU]
        | none =>
            have hfL := hInv.lbFresh k hlb
            have hsU := hInv.ubSaved k vU hub
            cases horig : orig.lookup k with
            | none => rw [horig] at hsU; cases hsU
            | some ciO =>
                rw [horig] at hfL hsU
                have hsome : (st.model.cons.lookup k).isSome := by
                  apply lookup_isSome_of_mem_keys
                  rw [hInv.keys]
                  exact mem_keys_of_lookup_isSome orig k (by rw [horig]; rfl)
                cases hcur : st.model.cons.lookup k with
                | none => rw [hcur] at hsome; cases hsome
                | some ciC =>
                    rw [hcur] at hfL
                    obtain ⟨lo, up⟩ := ciO
                    obtain ⟨loC, upC⟩ := ciC
                    simp only [Option.map_some', Option.some.injEq] at hfL hsU
                    show (some { lower := loC, upper := vU } : Option ConInfo) =
                      some { lower := lo, upper := up }
                    rw [hfL, ← hsU]
    | none =>
        cases hlb : st.modifiedLb.lookup k with
        | some vL =>
            have hsL := hInv.lbSaved k vL hlb
            have hfU := hInv.ubFresh k hub
            cases horig : orig.lookup k with
            | none => rw [horig] at hsL; cases hsL
            | some ciO =>
                rw [horig] at hsL hfU
                have hsome : (st.model.cons.lookup k).isSome := by
                  apply lookup_isSome_of_mem_keys
                  rw [hInv.keys]
                  exact mem_keys_of_lookup_isSome orig k (by rw [horig]; rfl)
                cases hcur : st.model.cons.lookup k with
                | none => rw [hcur] at hsome; cases hsome
                | some ciC =>
                    rw [hcur] at hfU
                    obtain ⟨lo, up⟩ := ciO
                    obtain ⟨loC, upC⟩ := ciC
                    simp only [Option.map_some', Option.some.injEq] at hsL hfU
                    show (some { lower := vL, upper := upC } : Option ConInfo) =
                      some { lower := lo, upper := up }
                    rw [hfU, ← hsL]
        | none =>
            have hfL := hInv.lbFresh k hlb
            have hfU := hInv.ubFresh k hub
            cases horig : orig.lookup k with
            | none =>
                rw [horig] at hfL
                cases hcur : st.model.cons.lookup k with
                | none => rfl
                | some ciC => rw [hcur] at hfL; cases hfL
            | some ciO =>
                rw [horig] at hfL hfU
                cases hcur : st.model.cons.lookup k with
                | none => rw [hcur] at hfL; cases hfL
                | some ciC =>
                    rw [hcur] at hfL hfU
                    obtain ⟨lo, up⟩ := ciO
                    obtain ⟨loC, upC⟩ := ciC
                    simp only [Option.map_some', Option.some.injEq] at hfL hfU
                    simp only [Option.some.injEq, ConInfo.mk.injEq]
                    exact ⟨hfL, hfU⟩

/-! ### Assembly: the conversion restores bounds on success -/

theorem resolveRhs_entries_nodup (anns : List RhsAnnData) (allCons : List Nat)
    (b : Bool) (entries : List (Nat × IncludeBound))
    (h : resolveStochasticRhs anns allCons = .ok (some (b, entries)))
    (h1 : ∀ ann ∈ anns, (ann.entries.map Prod.fst).Nodup)
    (h2 : allCons.Nodup) : (entries.map Prod.fst).Nodup := by
  unfold resolveStochasticRhs locateAnnotationsLimited at h
  by_cases hlen : anns.length > 1
  · rw [if_pos hlen] at h
    simp only [] at h
    exact Except.noConfusion h
  · rw [if_neg hlen] at h
    cases anns with
    | nil =>
        simp only [] at h
        injection h with h
        exact Option.noConfusion h
    | cons ann rest =>
        simp only [] at h
        by_cases hd : ann.hasDecl = true
        · rw [if_pos hd] at h
          by_cases he : ann.entries.isEmpty = true
          · rw [if_pos he] at h
            exact Except.noConfusion h
          · rw [if_neg he] at h
            simp only [Except.ok.injEq, Option.some.injEq,
              Prod.mk.injEq] at h
            rw [← h.2]
            exact h1 ann (List.mem_cons_self _ _)
        · rw [if_neg hd] at h
          simp only [Except.ok.injEq, Option.some.injEq, Prod.mk.injEq] at h
          rw [← h.2, List.map_map]
          have hcomp : (Prod.fst ∘ fun c => (c, ann.defaultBound)) =
              fun c : Nat => c := rfl
          rw [hcomp]
          simpa using h2

/-- The function `checkAnnotations` hands the rhs section entry lists whose
constraints are pairwise distinct, provided every annotation's
expansion and the active-constraint list are duplicate-free. -/
theorem checkAnnotations_rhs_nodup (a : AnnInput) (res : ResolvedAnnotations)
    (h : checkAnnotations a = .ok res)
    (h1 : ∀ ann ∈ a.rhsAnns, (ann.entries.map Prod.fst).Nodup)
    (h2 : a.allConstraints.Nodup) :
    ∀ b entries, res.rhs = some (b, entries) →
      (entries.map Prod.fst).Nodup := by
  intro b entries hres
  unfold checkAnnotations at h
  rcases hr : resolveStochasticRhs a.rhsAnns a.allConstraints with e | rhsRes
  · rw [hr] at h
    simp only [] at h
    exact Except.noConfusion h
  · rw [hr] at h
    rcases hm : resolveStochasticMatrix a.matrixAnns a.allConstraints
      with e | mres
    · rw [hm] at h
      simp only [] at h
      exact Except.noConfusion h
    · rw [hm] at h
      rcases ho : resolveStochasticObjective a.objAnns with e | ores
      · rw [ho] at h
        simp only [] at h
        exact Except.noConfusion h
      · rw [ho] at h
        simp only [] at h
        by_cases hvb : a.varBoundsAnnCount > 0
        · rw [if_pos hvb] at h
          cases h
        · rw [if_neg hvb] at h
          by_cases hall : (rhsRes.isNone && mres.isNone && ores.isNone) = true
          · rw [if_pos hall] at h
            cases h
          · rw [if_neg hall] at h
            injection h with h
            rw [← h] at hres
            simp only [] at hres
            rw [hres] at hr
            exact resolveRhs_entries_nodup a.rhsAnns a.allConstraints b
              entries hr h1 h2

/-- On a successful run of
`_convert_external_setup_without_cleanup`, the constraint bounds of the
returned model are exactly those of the input model: every sentinel
written by the stochastic-rhs section is undone by the restore of lines
966-970, and the matrix and objective sections never touch bounds. -/
theorem convertExternalSetupWithoutCleanup_ok_cons (m : ExtModel)
    (inp : ExtInput) (c : ExtCounts) (mFinal : ExtModel)
    (hnd : (m.cons.map Prod.fst).Nodup)
    (h1 : ∀ ann ∈ inp.ann.rhsAnns, (ann.entries.map Prod.fst).Nodup)
    (h2 : inp.ann.allConstraints.Nodup)
    (hwf : ∀ p ∈ inp.fsCons ++ inp.ssCons, WellFormedLabels p.2)
    (hok : convertExternalSetupWithoutCleanup m inp = (.ok c, mFinal)) :
    mFinal.cons = m.cons := by
  unfold convertExternalSetupWithoutCleanup at hok
  rcases hca : checkAnnotations inp.ann with e | res
  · rw [hca] at hok
    simp only [Prod.mk.injEq] at hok
    exact Except.noConfusion hok.1
  · rw [hca] at hok
    simp only [] at hok
    by_cases hcr : m.canonicalRepn.isSome = true
    · rw [if_pos hcr] at hok
      simp only [Prod.mk.injEq] at hok
      exact Except.noConfusion hok.1
    · rw [if_neg hcr] at hok
      rcases hobj : m.srcRepns.lookup inp.objId with _ | objRepn
      · rw [hobj] at hok
        simp only [Prod.mk.injEq] at hok
        exact Except.noConfusion hok.1
      · rw [hobj] at hok
        simp only [] at hok
        rcases hcol : buildColumnOrder inp.fsVars inp.ssVars
          with e | columnOrder
        · rw [hcol] at hok
          simp only [Prod.mk.injEq] at hok
          exact Except.noConfusion hok.1
        · rw [hcol] at hok
          simp only [] at hok
          rcases htim : timChecks inp.fileFormat inp.fsVars inp.ssVars
            inp.ssCons with e | u
          · rw [htim] at hok
            simp only [Prod.mk.injEq] at hok
            exact Except.noConfusion hok.1
          · rw [htim] at hok
            simp only [] at hok
            set m2 : ExtModel := { m with
              canonicalRepn := some m.srcRepns
              genObj := some false
              genCon := some false } with hm2
            set st0 : ConvSt :=
              { model := m2, modifiedLb := [], modifiedUb := []
                rhsCount := 0, matrixCount := 0, costCount := 0
                sto := [] } with hst0
            have hInv0 : BoundInv m.cons st0.model.cons st0.modifiedLb
                st0.modifiedUb := boundInv_init m.cons
            rcases hrhs : (match res.rhs with
              | none => ((.ok () : Except PyError Unit), st0)
              | some (emptyAnn, entries) =>
                  processRhsEntries emptyAnn (inp.ssCons.map Prod.fst)
                    (inp.fsCons ++ inp.ssCons) entries st0) with ⟨r1, st1⟩
            have hInv1 : BoundInv m.cons st1.model.cons st1.modifiedLb
                st1.modifiedUb := by
              rcases hres : res.rhs with _ | ⟨emptyAnn, entries⟩
              · rw [hres] at hrhs
                simp only [Prod.mk.injEq] at hrhs
                rw [← hrhs.2]
                exact hInv0
              · rw [hres] at hrhs
                simp only [] at hrhs
                have hmain := processRhsEntries_inv m.cons emptyAnn
                  (inp.ssCons.map Prod.fst) (inp.fsCons ++ inp.ssCons)
                  entries st0 hInv0
                  (checkAnnotations_rhs_nodup inp.ann res hca h1 h2 emptyAnn
                    entries hres)
                  (fun cid _ => ⟨rfl, rfl⟩) hwf
                rw [hrhs] at hmain
                exact hmain
            rw [hrhs] at hok
            cases r1 with
            | error e =>
                simp only [Prod.mk.injEq] at hok
                exact Except.noConfusion hok.1
            | ok u1 =>
                simp only [] at hok
                rcases hmat : (match res.matrix with
                  | none => ((.ok () : Except PyError Unit), st1)
                  | some (emptyAnn, entries) =>
                      processMatrixEntries emptyAnn (inp.ssCons.map Prod.fst)
                        (inp.fsCons ++ inp.ssCons) columnOrder inp.varSymbols
                        inp.fixedVars entries st1) with ⟨r2, st2⟩
                have hInv2 : BoundInv m.cons st2.model.cons st2.modifiedLb
                    st2.modifiedUb := by
                  rcases hres : res.matrix with _ | ⟨emptyAnn, entries⟩
                  · rw [hres] at hmat
                    simp only [Prod.mk.injEq] at hmat
                    rw [← hmat.2]
                    exact hInv1
                  · rw [hres] at hmat
                    simp only [] at hmat
                    obtain ⟨hfm, hfl, hfu⟩ := processMatrixEntries_fields
                      emptyAnn (inp.ssCons.map Prod.fst)
                      (inp.fsCons ++ inp.ssCons) columnOrder inp.varSymbols
                      inp.fixedVars entries st1
                    rw [hmat] at hfm hfl hfu
                    rw [hfm, hfl, hfu]
                    exact hInv1
                rw [hmat] at hok
                cases r2 with
                | error e =>
                    simp only [Prod.mk.injEq] at hok
                    exact Except.noConfusion hok.1
                | ok u2 =>
                    simp only [] at hok
                    rcases hobjp : processObjective res.obj inp.objId
                      inp.objLabel columnOrder inp.varSymbols st2
                      with ⟨r3, st3⟩
                    have hInv3 : BoundInv m.cons st3.model.cons st3.modifiedLb
                        st3.modifiedUb := by
                      obtain ⟨hfm, hfl, hfu⟩ := processObjective_fields
                        res.obj inp.objId inp.objLabel columnOrder
                        inp.varSymbols st2
                      rw [hobjp] at hfm hfl hfu
                      rw [hfm, hfl, hfu]
                      exact hInv2
                    rw [hobjp] at hok
                    cases r3 with
                    | error e =>
                        simp only [Prod.mk.injEq] at hok
                        exact Except.noConfusion hok.1
                    | ok u3 =>
                        simp only [Prod.mk.injEq] at hok
                        rw [← hok.2]
                        exact restoreBounds_restores m.cons st3 hInv3 hnd

/-- Exception-path instance for C1: a model whose first constraint is
an annotated equality with bounds 7, followed by an annotated
constraint whose cached representation is nonlinear — the rhs loop
zeroes the first constraint's bounds and then raises on the second. -/
def convCexModel : ExtModel :=
  { cons := [(1, ⟨some 7, some 7⟩), (2, ⟨some 3, none⟩)]
    srcRepns := [(100, .linear (some 0) [] []),
                 (1, .linear (some 0) [10] [3]),
                 (2, .nonlinear)]
    canonicalRepn := none
    genObj := none
    genCon := none }

/-- Conversion input for the exception-path instance. -/
def convCexInput : ExtInput :=
  { ann := { rhsAnns := [⟨true, [(1, .all), (2, .all)], .all⟩]
             matrixAnns := []
             objAnns := []
             varBoundsAnnCount := 0
             allConstraints := [1, 2] }
    objId := 100
    objLabel := "o"
    fsVars := [("x", 10)]
    ssVars := [("y", 11)]
    fsCons := []
    ssCons := [(1, ["c_e_C1"]), (2, ["c_e_C2"])]
    varSymbols := [(10, "x"), (11, "y")]
    fixedVars := []
    fileFormat := .lp }

/-- C1, counterexample: on a run that fails with an exception after the
Deterministic Zeroing Transform has replaced a constraint's bounds, the
original bounds are NOT restored — the cleanup of
`_convert_external_setup` restores only the cached block attributes,
while the bound restore of lines 966-970 sits on the success path of
`_convert_external_setup_without_cleanup` and never runs.  Concretely:
constraint 1's bounds are 7 before conversion; the conversion raises
`RuntimeError` on the nonlinear second entry; afterwards constraint 1's
bounds read the sentinel -99999999. -/
theorem convert_external_bounds_left_modified_on_exception :
    (convertExternalSetup convCexModel convCexInput).1 =
        Except.error PyError.runtimeError ∧
      convCexModel.cons.lookup 1 = some ⟨some 7, some 7⟩ ∧
      (convertExternalSetup convCexModel convCexInput).2.cons.lookup 1 =
        some ⟨some deterministicCheckValue, some deterministicCheckValue⟩ := by
  refine ⟨rfl, rfl, rfl⟩

/-- C1 as amended: the canonical-representation caches that existed on
the model before the call are restored on every exit path (success,
caught error, or uncaught exception), and the constraint bounds
replaced by the Deterministic Zeroing Transform are restored on the
success path — but not on exception paths, as the counterexample
shows.  The hypotheses state that object handles are unique and that
each constraint's writer-assigned row-symbol list rewrites each bound
at most once, both guaranteed by the writer. -/
theorem convert_external_setup_restore_discipline (m : ExtModel)
    (inp : ExtInput)
    (hnd : (m.cons.map Prod.fst).Nodup)
    (h1 : ∀ ann ∈ inp.ann.rhsAnns, (ann.entries.map Prod.fst).Nodup)
    (h2 : inp.ann.allConstraints.Nodup)
    (hwf : ∀ p ∈ inp.fsCons ++ inp.ssCons, WellFormedLabels p.2) :
    (∀ rm, m.canonicalRepn = some rm →
      (convertExternalSetup m inp).2.canonicalRepn = some rm) ∧
      (∀ b, m.genObj = some b →
        (convertExternalSetup m inp).2.genObj = some b) ∧
      (∀ b, m.genCon = some b →
        (convertExternalSetup m inp).2.genCon = some b) ∧
      (∀ c, (convertExternalSetup m inp).1 = .ok c →
        (convertExternalSetup m inp).2.cons = m.cons) := by
  refine ⟨?_, ?_, ?_, ?_⟩
  · intro rm hrm
    unfold convertExternalSetup
    simp only [hrm]
  · intro b hb
    unfold convertExternalSetup
    simp only [hb]
  · intro b hb
    unfold convertExternalSetup
    simp only [hb]
  · intro c hc
    unfold convertExternalSetup at hc ⊢
    simp only [] at hc ⊢
    rcases hr : convertExternalSetupWithoutCleanup
      { m with genObj := none, genCon := none, canonicalRepn := none } inp
      with ⟨r, m1⟩
    rw [hr] at hc
    have hc2 : r = Except.ok c := hc
    subst hc2
    show m1.cons = m.cons
    exact convertExternalSetupWithoutCleanup_ok_cons
      { m with genObj := none, genCon := none, canonicalRepn := none } inp c
      m1 hnd h1 h2 hwf hr

/-- Success-path instance for C1: one annotated second-stage equality
constraint; the conversion completes and returns counts. -/
def convWitModel : ExtModel :=
  { cons := [(1, ⟨some 7, some 7⟩)]
    srcRepns := [(100, .linear (some 0) [] []),
                 (1, .linear (some 2) [10] [3])]
    canonicalRepn := none
    genObj := none
    genCon := none }

/-- Conversion input for the success-path instance. -/
def convWitInput : ExtInput :=
  { ann := { rhsAnns := [⟨true, [(1, .all)], .all⟩]
             matrixAnns := []
             objAnns := []
             varBoundsAnnCount := 0
             allConstraints := [1] }
    objId := 100
    objLabel := "o"
    fsVars := [("x", 10)]
    ssVars := [("y", 11)]
    fsCons := []
    ssCons := [(1, ["c_e_C1"])]
    varSymbols := [(10, "x"), (11, "y")]
    fixedVars := []
    fileFormat := .lp }

/-- The counts returned by the success-path instance. -/
def convWitCounts : ExtCounts :=
  { fsVarCount := 1, ssVarCount := 2, fsConCount := 0, ssConCount := 2
    costCount := 0, rhsCount := 1, matrixCount := 0 }

/-- Witness for the amended C1 theorem: the success-path instance
satisfies its hypotheses, succeeds, and its constraint bounds after the
conversion equal those before. -/
theorem convert_external_setup_restore_discipline_witness :
    (convWitModel.cons.map Prod.fst).Nodup ∧
      (convertExternalSetup convWitModel convWitInput).1 =
        Except.ok convWitCounts ∧
      (convertExternalSetup convWitModel convWitInput).2.cons =
        convWitModel.cons :=
  ⟨by decide, rfl,
    (convert_external_setup_restore_discipline convWitModel convWitInput
      (by decide) (by decide) (by decide) (by decide)).2.2.2
      convWitCounts rfl⟩

end PyomoSmps
